import Mathlib

/-!
# Verification of the nanomux URL-template engine and responder tree

This file is a shallow embedding of the nanomux router's template engine
(template parsing, matching, rendering, application), its URL splitter and
its responder-tree registration logic, together with proofs about the
behaviour of those functions.

Modelling conventions:
* Go strings are modelled as `List Char` (`GoStr`).  The source indexes
  strings by byte; for the templates the claims are about this coincides
  with character indexing.
* Go's `regexp` package is an external collaborator.  A compiled regex is
  modelled as its source string together with abstract matching semantics
  (`RegexSem`); compilation is an oracle (`RegexEngine`).  The source code
  never inspects a regex beyond `String()`, `FindStringIndex` and
  `FindAllStringIndex`, which is exactly the interface modelled here.
* Go maps are modelled as association lists; map iteration happens in list
  order (Go's map iteration order is unspecified).
* A Go `nil`-pointer dereference (a panic) is modelled explicitly where it
  is reachable (`SimilarityWith` returns an `Option`); in functions where
  the dereferenced pointer is never `nil` for any template produced by the
  parser, the impossible branch is given a harmless default, marked by a
  comment.
-/

set_option maxHeartbeats 1000000

namespace Nanomux

/-- Go strings, as lists of characters. -/
abbrev GoStr := List Char

/-- Literal helper: a Lean string literal as a `GoStr`. -/
def gs (s : String) : GoStr := s.toList

/-- `Similarity` is a degree of difference between templates
(source: part_000, `type Similarity uint8`). -/
inductive Similarity where
  | Different
  | DifferentValueNames
  | DifferentNames
  | TheSame
deriving DecidableEq, Repr

/-- The error kinds of the template engine, by identity of the wrapped
sentinel error value (the Go code wraps these with `fmt.Errorf`). -/
inductive TErr where
  | invalidTemplate
  | invalidValue (valueName : GoStr)
  | missingValue (valueName : GoStr)
  | differentPattern (valueName : GoStr)
  | repeatedWildcardName (valueName : GoStr)
  | anotherWildcardName (valueName : GoStr)
  | invalidRegex
deriving DecidableEq, Repr

/-- Abstract matching semantics of a compiled regex: Go's
`FindStringIndex` (leftmost match, as half-open index interval) and
`FindAllStringIndex(s, -1)` (all successive leftmost matches). -/
structure RegexSem where
  find : GoStr → Option (Nat × Nat)
  findAll : GoStr → List (Nat × Nat)

/-- A compiled regex: `src` is what Go's `re.String()` returns (the exact
compile-time source), `sem` its matching behaviour. -/
structure Regexp where
  src : GoStr
  sem : RegexSem

/-- The regex compiler, as an oracle: `compile s = none` models a
compilation error.  Go guarantees `re.String()` equals the compiled
source, which the embedding bakes in by construction. -/
structure RegexEngine where
  compile : GoStr → Option RegexSem

/-- Compile a pattern with engine `E`; the resulting `Regexp` carries the
source verbatim, as Go's `regexp.Compile` does. -/
def RegexEngine.compileRe (E : RegexEngine) (s : GoStr) : Option Regexp :=
  (E.compile s).map (fun sem => { src := s, sem := sem })

/-- `_ValuePattern` of the source: a value name with an optional compiled
regex (`none` exactly for the wildcard). -/
structure ValuePattern where
  name : GoStr
  re : Option Regexp

/-- `_TemplateSlice` of the source: mirrors the Go struct with both
fields; a static slice has `staticStr ≠ ""` and `valuePattern = none`,
a dynamic slice has `staticStr = ""` and a value pattern. -/
structure TemplateSlice where
  staticStr : GoStr
  valuePattern : Option ValuePattern

instance : Inhabited TemplateSlice := ⟨⟨[], none⟩⟩

/-- A static slice (the Go composite literal `_TemplateSlice{staticStr: s}`). -/
def TemplateSlice.static (s : GoStr) : TemplateSlice := ⟨s, none⟩

/-- A dynamic slice (the Go literal `_TemplateSlice{valuePattern: vp}`). -/
def TemplateSlice.dynamic (vp : ValuePattern) : TemplateSlice := ⟨[], some vp⟩

/-- The parsed `Template`: name, slices and the index of the wildcard
slice (`-1` when there is none), exactly as the Go struct. -/
structure Template where
  name : GoStr
  slices : List TemplateSlice
  wildCardIdx : Int

/-- `Template.Name`. -/
def Template.Name (t : Template) : GoStr := t.name

/-- `Template.IsStatic`: a single slice with non-empty static string. -/
def Template.IsStatic (t : Template) : Bool :=
  match t.slices with
  | [slc] => slc.staticStr ≠ []
  | _ => false

/-- `Template.IsWildcard`: a single dynamic slice with no regex. -/
def Template.IsWildcard (t : Template) : Bool :=
  match t.slices with
  | [slc] =>
    match slc.valuePattern with
    | some vp => vp.re.isNone
    | none => false
  | _ => false

/-- The value map built during matching (`map[string]string`), as an
association list; `lookupVal`/`insertVal` give Go map load/store. -/
abbrev Values := List (GoStr × GoStr)

/-- Go map load `v, found := m[k]`. -/
def lookupVal (m : Values) (k : GoStr) : Option GoStr :=
  (m.find? (fun p => p.1 = k)).map (·.2)

/-- Go map store `m[k] = v` (replaces an existing binding). -/
def insertVal (m : Values) (k v : GoStr) : Values :=
  if (m.find? (fun p => p.1 = k)).isSome then
    m.map (fun p => if p.1 = k then (k, v) else p)
  else
    m ++ [(k, v)]

/-- `Template.SimilarityWith`, static-template case aside: the pairwise
walk over the slices of two non-static, non-wildcard templates.
`none` models the Go nil-pointer panic that happens when a dynamic slice
(`staticStr == ""`) is compared against a static slice, whose
`valuePattern` field is `nil`. -/
def similarityWalk : List TemplateSlice → List TemplateSlice → Similarity →
    Option Similarity
  | [], [], acc => some acc
  | slc1 :: rest1, slc2 :: rest2, acc =>
    if slc1.staticStr ≠ [] then
      if slc1.staticStr ≠ slc2.staticStr then some .Different
      else similarityWalk rest1 rest2 acc
    else
      -- Go dereferences both value patterns here; `slc1.valuePattern` is
      -- `some` (its `staticStr` is empty only for dynamic slices of parsed
      -- templates), but `slc2.valuePattern` is `nil` when `slc2` is
      -- static, and the dereference panics.
      match slc1.valuePattern, slc2.valuePattern with
      | some vp1, some vp2 =>
        match vp1.re, vp2.re with
        | some re1, some re2 =>
          if re1.src ≠ re2.src then some .Different
          else if vp1.name ≠ vp2.name then
            similarityWalk rest1 rest2 .DifferentValueNames
          else similarityWalk rest1 rest2 acc
        | none, none =>
          if vp1.name ≠ vp2.name then
            similarityWalk rest1 rest2 .DifferentValueNames
          else similarityWalk rest1 rest2 acc
        | _, _ => some .Different
      | _, _ => none
  | _, _, _ => none  -- unreachable: the caller checks the lengths agree

/-- `Template.SimilarityWith`.  `none` models a Go panic (nil value
pattern dereferenced during the pairwise walk). -/
def Template.SimilarityWith (t anotherT : Template) : Option Similarity :=
  if t.IsStatic then
    if anotherT.IsStatic then
      match t.slices, anotherT.slices with
      | [slc1], [slc2] =>
        if slc1.staticStr = slc2.staticStr then
          if t.name ≠ anotherT.name then some .DifferentNames
          else some .TheSame
        else some .Different
      | _, _ => some .Different
    else some .Different
  else if t.IsWildcard then
    if anotherT.IsWildcard then
      match t.slices, anotherT.slices with
      | [slc1], [slc2] =>
        match slc1.valuePattern, slc2.valuePattern with
        | some vp1, some vp2 =>
          if vp1.name = vp2.name then
            if t.name ≠ anotherT.name then some .DifferentNames
            else some .TheSame
          else some .DifferentValueNames
        | _, _ => none  -- unreachable: wildcard templates carry a pattern
      | _, _ => none
    else some .Different
  else if anotherT.IsStatic ∨ anotherT.IsWildcard then some .Different
  else if t.wildCardIdx ≠ anotherT.wildCardIdx then some .Different
  else if t.slices.length ≠ anotherT.slices.length then some .Different
  else
    match similarityWalk t.slices anotherT.slices .TheSame with
    | none => none
    | some .TheSame =>
      if t.name ≠ anotherT.name then some .DifferentNames else some .TheSame
    | some s => some s

/-! ## Matching (`Template.Match`) -/

/-- The left-to-right pass of `Template.Match`: consume the slices to the
left of the wildcard index from the start of `str`.  A static slice must
be a prefix; a pattern slice consumes `str[:idxs[1]]` where `idxs` is the
leftmost regex match, recording (or re-checking) the captured value.
Returns the remaining string and the updated values on success.

The dereferences `slc.valuePattern`/`vp.re` cannot be `nil` here for
parser-produced templates (the slices left of the wildcard are static or
pattern slices); the impossible branches fail the match. -/
def matchLeft : List TemplateSlice → GoStr → Values → Option (GoStr × Values)
  | [], str, values => some (str, values)
  | slc :: rest, str, values =>
    if slc.staticStr ≠ [] then
      if slc.staticStr.isPrefixOf str then
        matchLeft rest (str.drop slc.staticStr.length) values
      else none
    else
      match slc.valuePattern with
      | some vp =>
        match vp.re with
        | some re =>
          match re.sem.find str with
          | some idxs =>
            let v := str.take idxs.2
            match lookupVal values vp.name with
            | some vf =>
              if v ≠ vf then none
              else matchLeft rest (str.drop idxs.2) values
            | none =>
              matchLeft rest (str.drop idxs.2) (insertVal values vp.name v)
          | none => none
        | none => none  -- unreachable left of the wildcard; Go panics
      | none => none  -- unreachable: dynamic slices carry a value pattern

/-- The right-to-left pass of `Template.Match`: consume the slices right
of the wildcard index from the end of `str` (`slices` is given here
already reversed, i.e. from the last slice downwards).  A static slice
must be a suffix; for a pattern slice the rightmost regex match is found
with `FindAllStringIndex` and `str[lastIdxs[0]:]` is consumed. -/
def matchRight : List TemplateSlice → GoStr → Values → Option (GoStr × Values)
  | [], str, values => some (str, values)
  | slc :: rest, str, values =>
    if slc.staticStr ≠ [] then
      if slc.staticStr.isSuffixOf str then
        matchRight rest (str.take (str.length - slc.staticStr.length)) values
      else none
    else
      match slc.valuePattern with
      | some vp =>
        match vp.re with
        | some re =>
          match (re.sem.findAll str).getLast? with
          | some lastIdxs =>
            let v := str.drop lastIdxs.1
            match lookupVal values vp.name with
            | some vf =>
              if v ≠ vf then none
              else matchRight rest (str.take lastIdxs.1) values
            | none =>
              matchRight rest (str.take lastIdxs.1) (insertVal values vp.name v)
          | none => none
        | none => none  -- unreachable right of the wildcard; Go panics
      | none => none  -- unreachable: dynamic slices carry a value pattern

/-- The core of `Template.Match` for a template that is neither static nor
wildcard-only: both passes, producing the remainder left for the wildcard
together with the captured values. -/
def Template.matchParts (t : Template) (str : GoStr) :
    Option (GoStr × Values) :=
  let k : Nat := if t.wildCardIdx ≥ 0 then t.wildCardIdx.toNat
                 else t.slices.length
  match matchLeft (t.slices.take k) str [] with
  | none => none
  | some (str1, values1) =>
      matchRight ((t.slices.drop (k + 1)).reverse) str1 values1

/-- `Template.Match`.  Returns Go's `(matched, values)` pair; `values` is
`none` when the Go function returns a nil map (static templates and all
failures). -/
def Template.Match (t : Template) (str : GoStr) : Bool × Option Values :=
  if t.IsStatic then
    (decide (((t.slices.headI).staticStr) = str), none)
  else if t.IsWildcard then
    match (t.slices.headI).valuePattern with
    | some vp => (true, some [(vp.name, str)])
    | none => (false, none)  -- unreachable: wildcard slices carry a pattern
  else
    match t.matchParts str with
    | none => (false, none)
    | some (str2, values2) =>
      if t.wildCardIdx ≥ 0 ∧ str2.length > 0 then
        match (t.slices.get? t.wildCardIdx.toNat).bind (·.valuePattern) with
        | some vp => (true, some (insertVal values2 vp.name str2))
        | none => (false, none)  -- unreachable: the wildcard slice exists
      else (true, some values2)

/-! ## Application (`Template.Apply`) -/

/-- One iteration of the `Template.Apply` loop, for slice `slc`: a static
slice contributes its string; a dynamic slice looks its value up, checks
it against the regex (error unless the leftmost match starts at index `0`
or ends at the value's end), and skips or fails a missing value depending
on `ignoreMissing`. -/
def applySlice (values : Values) (ignoreMissing : Bool)
    (slc : TemplateSlice) : Except TErr GoStr :=
  if slc.staticStr ≠ [] then .ok slc.staticStr
  else
    match slc.valuePattern with
    | some vp =>
      match lookupVal values vp.name with
      | some v =>
        match vp.re with
        | some re =>
          match re.sem.find v with
          | some idxs =>
            if idxs.1 ≠ 0 ∧ idxs.2 ≠ v.length then
              .error (.invalidValue vp.name)
            else .ok v
          | none => .error (.invalidValue vp.name)
        | none => .ok v
      | none =>
        if ignoreMissing then .ok []
        else .error (.missingValue vp.name)
    | none => .ok []  -- unreachable: dynamic slices carry a value pattern

/-- The `Template.Apply` loop over a slice list, concatenating the
contributions and propagating the first error. -/
def applyLoop (values : Values) (ignoreMissing : Bool) :
    List TemplateSlice → Except TErr GoStr
  | [] => .ok []
  | slc :: rest =>
    match applySlice values ignoreMissing slc with
    | .error e => .error e
    | .ok s =>
      match applyLoop values ignoreMissing rest with
      | .error e => .error e
      | .ok s' => .ok (s ++ s')

/-- `Template.Apply`: substitute the values into the template. -/
def Template.Apply (t : Template) (values : Values) (ignoreMissing : Bool) :
    Except TErr GoStr :=
  applyLoop values ignoreMissing t.slices

/-! ## Rendering (`Template.Content`, `Template.String`) -/

/-- Escape every `{` and `}` of a static slice with a backslash
(the loop body of `Template.Content` for static slices). -/
def escapeBraces : GoStr → GoStr
  | [] => []
  | c :: rest =>
    if c = '{' ∨ c = '}' then '\\' :: c :: escapeBraces rest
    else c :: escapeBraces rest

/-- Escape every `:` with a backslash (used for value names in
`Template.Content` and for the template name in `Template.String`). -/
def escapeColons : GoStr → GoStr
  | [] => []
  | c :: rest =>
    if c = ':' then '\\' :: ':' :: escapeColons rest
    else c :: escapeColons rest

/-- The slice loop of `Template.Content`; `vns` is the set of value names
whose pattern has already been written (a repeated value-pattern is
rendered without its pattern from the second occurrence on). -/
def contentLoop : List TemplateSlice → List GoStr → GoStr
  | [], _ => []
  | slc :: rest, vns =>
    if slc.staticStr ≠ [] then
      escapeBraces slc.staticStr ++ contentLoop rest vns
    else
      match slc.valuePattern with
      | some vp =>
        match vp.re with
        | some re =>
          if vns.contains vp.name then
            '{' :: (escapeColons vp.name ++ '}' :: contentLoop rest vns)
          else
            '{' :: (escapeColons vp.name ++ ':' :: re.src ++
              '}' :: contentLoop rest (vp.name :: vns))
        | none =>
          '{' :: (escapeColons vp.name ++ '}' :: contentLoop rest vns)
      | none =>
        -- unreachable (dynamic slices carry a value pattern); Go panics
        '{' :: '}' :: contentLoop rest vns

/-- `Template.Content`: the template's string without its name.  An
unnamed template whose first slice starts with `$` gets the `$` escaped. -/
def Template.Content (t : Template) : GoStr :=
  let lead : GoStr :=
    match t.slices with
    | slc :: _ =>
      if t.name = [] ∧ slc.staticStr.head? = some '$' then ['\\'] else []
    | [] => []
  lead ++ contentLoop t.slices []

/-- `Template.String`: `$name:` (name with colons escaped) followed by the
content; the name part is omitted for unnamed templates. -/
def Template.StringRepr (t : Template) : GoStr :=
  (if t.name ≠ [] then '$' :: (escapeColons t.name ++ [':']) else []) ++
    t.Content

/-! ## Parsing -/

/-- The name-scanning loop of `templateNameAndContent`: scan for the first
unescaped `:`; `\:` is unescaped into the name.  Returns the name and the
remaining content (everything after the separating colon, or `""` when no
unescaped colon exists). -/
def nameLoop : GoStr → List Char → GoStr × GoStr
  | [], acc => (acc.reverse, [])
  | c :: rest, acc =>
    if c = ':' then
      if acc.head? = some '\\' then nameLoop rest (':' :: acc.tail)
      else (acc.reverse, rest)
    else nameLoop rest (c :: acc)

/-- `templateNameAndContent`: split a template string into its `$name:`
part (if any) and its content.  A leading `\$` is stripped, making the
`$` part of the content.  (The function is only ever called on non-empty
strings; Go would panic on `""`.) -/
def templateNameAndContent (t : GoStr) : Except TErr (GoStr × GoStr) :=
  match t with
  | [] => .ok ([], [])
  | c :: rest =>
    if c = '$' then
      if rest = [] then .error .invalidTemplate else .ok (nameLoop rest [])
    else if c = '\\' ∧ rest.head? = some '$' then .ok ([], rest)
    else .ok ([], t)

/-- The character loop of `staticSlice`: accumulate literal characters,
unescaping `\{` and `\}`; stop (returning the rest, which begins with the
brace) at an unescaped `{`; fail on an unescaped `}`.  `acc` holds the
accumulated output in reverse; its head is the previously read character,
which the Go code consults through `pch`. -/
def staticSliceAux : GoStr → List Char → Except TErr (GoStr × GoStr)
  | [], acc => .ok (acc.reverse, [])
  | c :: rest, acc =>
    if c = '{' then
      if acc.head? = some '\\' then staticSliceAux rest ('{' :: acc.tail)
      else .ok (acc.reverse, '{' :: rest)
    else if c = '}' then
      if acc.head? = some '\\' then staticSliceAux rest ('}' :: acc.tail)
      else .error .invalidTemplate  -- unescaped curly brace '}'
    else staticSliceAux rest (c :: acc)

/-- `staticSlice`: the static slice at the beginning of a template string,
together with the unconsumed rest. -/
def staticSlice (t : GoStr) : Except TErr (GoStr × GoStr) :=
  staticSliceAux t []

/-- State of the character-class detector inside a regex pattern: the
class just opened (`]` cannot close it), the previous character was the
`^` right after `[` (`]` cannot close it either), or the class is
closable. -/
inductive ClsState where
  | justOpened
  | afterCaret
  | closable
deriving DecidableEq, Repr

/-- Advance the class state over one ordinary character. -/
def clsAdvance : ClsState → Char → ClsState
  | .justOpened, c => if c = '^' then .afterCaret else .closable
  | .afterCaret, _ => .closable
  | .closable, _ => .closable

/-- The pattern phase of `dynamicSlice` (after the separating `:`):
collect the raw pattern characters until the matching unescaped `}` at
depth 1.  `\x` passes both characters through; `[...]` suspends the
depth tracking (with the `[]`/`[^]` degenerate-class quirk of the
source); an unescaped `{` always increments the depth, even inside a
character class (as in the source, where the `{` check precedes the
class check). -/
def dynPattern : GoStr → Nat → GoStr → Option ClsState → List Char →
    Except TErr (GoStr × GoStr × GoStr)
  | [], _, _, _, _ => .error .invalidTemplate  -- incomplete dynamic slice
  | c :: rest, depth, vn, cls, pacc =>
    if c = '{' then
      dynPattern rest (depth + 1) vn (cls.map (fun st => clsAdvance st '{'))
        ('{' :: pacc)
    else if c = '\\' then
      match rest with
      | [] => .error .invalidTemplate  -- trailing escape: incomplete slice
      | d :: rest' =>
        dynPattern rest' depth vn (cls.map (fun _ => ClsState.closable))
          (d :: '\\' :: pacc)
    else
      match cls with
      | some st =>
        if c = ']' ∧ st = .closable then
          dynPattern rest depth vn none (']' :: pacc)
        else
          dynPattern rest depth vn (some (clsAdvance st c)) (c :: pacc)
      | none =>
        if c = '[' then
          dynPattern rest depth vn (some .justOpened) ('[' :: pacc)
        else if c = '}' then
          if depth - 1 > 0 then
            dynPattern rest (depth - 1) vn none ('}' :: pacc)
          else if pacc.isEmpty then
            .error .invalidTemplate  -- empty pattern
          else .ok (vn, pacc.reverse, rest)
        else dynPattern rest depth vn none (c :: pacc)

/-- The value-name phase of `dynamicSlice`: collect the value name up to
the first unescaped `:` at depth 1 (then switch to the pattern phase) or
up to the unescaped `}` closing the slice (then there is no pattern).
`acc` holds the name in reverse; its head is the previous character. -/
def dynVName : GoStr → Nat → List Char →
    Except TErr (GoStr × GoStr × GoStr)
  | [], _, _ => .error .invalidTemplate  -- incomplete dynamic slice
  | c :: rest, depth, acc =>
    if c = '{' then dynVName rest (depth + 1) ('{' :: acc)
    else if c = ':' then
      if acc.head? = some '\\' then dynVName rest depth (':' :: acc.tail)
      else if depth > 1 then .error .invalidTemplate  -- open curly brace
      else if acc.isEmpty then .error .invalidTemplate  -- empty value name
      else dynPattern rest depth acc.reverse none []
    else if c = '}' then
      if depth - 1 > 0 then dynVName rest (depth - 1) ('}' :: acc)
      else if acc.isEmpty then .error .invalidTemplate  -- empty dynamic slice
      else .ok (acc.reverse, [], rest)
    else dynVName rest depth (c :: acc)

/-- `dynamicSlice`: the dynamic slice's value name and pattern at the
beginning of the template string (which starts with the `{` that the
function skips), and the unconsumed rest. -/
def dynamicSlice : GoStr → Except TErr (GoStr × GoStr × GoStr)
  | [] => .error .invalidTemplate  -- incomplete dynamic slice
  | _ :: rest => dynVName rest 1 []

/-- The map-rewriting loop in `appendDynamicSliceTo`: when the first
wildcard is appended, every previously recorded value pattern `^x` is
recompiled as `x$` (the first character is dropped and `$` appended), so
that reuses after the wildcard match from the end of the string. -/
def rewriteVps (E : RegexEngine) :
    List (GoStr × ValuePattern) → Except TErr (List (GoStr × ValuePattern))
  | [] => .ok []
  | (_, vp) :: rest =>
    -- `vp.re` is never `none` for map entries (wildcards are not recorded)
    let p := (vp.re.map (·.src)).getD []
    match E.compileRe (p.drop 1 ++ ['$']) with
    | none => .error .invalidRegex
    | some re =>
      match rewriteVps E rest with
      | .error e => .error e
      | .ok rest' => .ok ((vp.name, ⟨vp.name, some re⟩) :: rest')

/-- `appendDynamicSliceTo`: append the dynamic slice `{vName:pattern}` to
the slice list, reusing the recorded value pattern for a repeated name,
creating a wildcard for an absent pattern (rewriting the recorded
patterns' anchors when it is the first wildcard), or compiling a new
anchored pattern.  Returns the new slices, wildcard index and value
pattern map. -/
def appendDynamicSliceTo (E : RegexEngine) (tss : List TemplateSlice)
    (vName pattern : GoStr) (valuePatterns : List (GoStr × ValuePattern))
    (wildCardIdx : Int) :
    Except TErr (List TemplateSlice × Int × List (GoStr × ValuePattern)) :=
  match (valuePatterns.find? (fun p => p.1 = vName)).map (·.2) with
  | some vp =>
    if pattern ≠ [] then
      let anchored := if wildCardIdx ≥ 0 then pattern ++ ['$']
                      else '^' :: pattern
      if anchored ≠ (vp.re.map (·.src)).getD [] then
        .error (.differentPattern vName)
      else .ok (tss ++ [TemplateSlice.dynamic vp], wildCardIdx, valuePatterns)
    else .ok (tss ++ [TemplateSlice.dynamic vp], wildCardIdx, valuePatterns)
  | none =>
    if pattern = [] then
      if wildCardIdx ≥ 0 then
        let wcName :=
          ((tss.get? wildCardIdx.toNat).bind (·.valuePattern)).map (·.name)
        if wcName = some vName then .error (.repeatedWildcardName vName)
        else .error (.anotherWildcardName vName)
      else
        match rewriteVps E valuePatterns with
        | .error e => .error e
        | .ok vps' =>
          .ok (tss ++ [TemplateSlice.dynamic ⟨vName, none⟩],
               (tss.length : Int), vps')
    else
      let anchored := if wildCardIdx ≥ 0 then pattern ++ ['$']
                      else '^' :: pattern
      match E.compileRe anchored with
      | none => .error .invalidRegex
      | some re =>
        .ok (tss ++ [TemplateSlice.dynamic ⟨vName, some re⟩], wildCardIdx,
             valuePatterns ++ [(vName, ⟨vName, some re⟩)])

/-- `staticSliceAux` never lengthens the rest of the string. -/
theorem staticSliceAux_rest_le (t : GoStr) (acc : List Char)
    (s rest : GoStr) (h : staticSliceAux t acc = .ok (s, rest)) :
    rest.length ≤ t.length := by
  induction t generalizing acc with
  | nil =>
    simp only [staticSliceAux, Except.ok.injEq, Prod.mk.injEq] at h
    simp [← h.2]
  | cons c t ih =>
    simp only [staticSliceAux] at h
    split_ifs at h
    · exact le_trans (ih _ h) (by simp)
    · simp only [Except.ok.injEq, Prod.mk.injEq] at h
      simp [← h.2]
    · exact le_trans (ih _ h) (by simp)
    · exact le_trans (ih _ h) (by simp)

/-- The rest returned by `dynPattern` is strictly shorter than its input
(the closing `}` is always consumed). -/
theorem dynPattern_rest_lt (t : GoStr) (depth : Nat) (vn : GoStr)
    (cls : Option ClsState) (pacc : List Char) (vn' pat rest : GoStr)
    (h : dynPattern t depth vn cls pacc = .ok (vn', pat, rest)) :
    rest.length < t.length := by
  have main : ∀ (n : Nat) (t : GoStr) (depth : Nat) (vn : GoStr)
      (cls : Option ClsState) (pacc : List Char) (vn' pat rest : GoStr),
      t.length ≤ n → dynPattern t depth vn cls pacc = .ok (vn', pat, rest) →
      rest.length < t.length := by
    intro n
    induction n with
    | zero =>
      intro t depth vn cls pacc vn' pat rest hlen h
      cases t with
      | nil => exact (Except.noConfusion h)
      | cons c t0 => exact absurd hlen (by simp)
    | succ n ih =>
      intro t depth vn cls pacc vn' pat rest hlen h
      cases t with
      | nil => exact (Except.noConfusion h)
      | cons c t0 =>
        rw [dynPattern.eq_def] at h
        simp only [] at h
        by_cases h1 : c = '{'
        · rw [if_pos h1] at h
          have := ih t0 _ _ _ _ _ _ _ (by simp at hlen; omega) h
          simp; omega
        · rw [if_neg h1] at h
          by_cases h2 : c = '\\'
          · rw [if_pos h2] at h
            cases t0 with
            | nil => exact (Except.noConfusion h)
            | cons d t1 =>
              simp only at h
              have := ih t1 _ _ _ _ _ _ _ (by simp at hlen; omega) h
              simp; omega
          · rw [if_neg h2] at h
            cases cls with
            | some st =>
              simp only at h
              split_ifs at h with h3
              · have := ih t0 _ _ _ _ _ _ _ (by simp at hlen; omega) h
                simp; omega
              · have := ih t0 _ _ _ _ _ _ _ (by simp at hlen; omega) h
                simp; omega
            | none =>
              simp only at h
              split_ifs at h with h3 h4 h5 h6
              · have := ih t0 _ _ _ _ _ _ _ (by simp at hlen; omega) h
                simp; omega
              · have := ih t0 _ _ _ _ _ _ _ (by simp at hlen; omega) h
                simp; omega
              · simp only [Except.ok.injEq, Prod.mk.injEq] at h
                simp [← h.2.2]
              · have := ih t0 _ _ _ _ _ _ _ (by simp at hlen; omega) h
                simp; omega
  exact main t.length t depth vn cls pacc vn' pat rest le_rfl h

/-- The rest returned by `dynVName` is strictly shorter than its input. -/
theorem dynVName_rest_lt (t : GoStr) (depth : Nat) (acc : List Char)
    (vn' pat rest : GoStr)
    (h : dynVName t depth acc = .ok (vn', pat, rest)) :
    rest.length < t.length := by
  induction t generalizing depth acc with
  | nil => exact (Except.noConfusion h)
  | cons c t0 ih =>
    simp only [dynVName] at h
    split_ifs at h with h1 h2 h3 h4 h5 h6 h7 h8
    · have := ih _ _ h; simp; omega
    · have := ih _ _ h; simp; omega
    · have := dynPattern_rest_lt _ _ _ _ _ _ _ _ h; simp; omega
    · have := ih _ _ h; simp; omega
    · simp only [Except.ok.injEq, Prod.mk.injEq] at h
      simp [← h.2.2]
    · have := ih _ _ h; simp; omega

/-- The rest returned by `dynamicSlice` is strictly shorter than its
input. -/
theorem dynamicSlice_rest_lt (t : GoStr) (vn' pat rest : GoStr)
    (h : dynamicSlice t = .ok (vn', pat, rest)) :
    rest.length < t.length := by
  cases t with
  | nil => exact (Except.noConfusion h)
  | cons c t0 =>
    simp only [dynamicSlice] at h
    have := dynVName_rest_lt _ _ _ _ _ _ h
    simp; omega

/-- The main loop of `parse`: alternate `staticSlice` and `dynamicSlice`
until the template string is exhausted, appending the produced slices.
The `fuel` argument only makes the recursion structural (and hence
kernel-computable); each iteration strictly shortens the template string,
so any fuel of at least the string's length gives the loop's behaviour
(`parseLoopN_fuel_irrel`). -/
def parseLoopN (E : RegexEngine) : Nat → GoStr → List TemplateSlice →
    List (GoStr × ValuePattern) → Int → Except TErr (List TemplateSlice × Int)
  | _, [], tss, _, wci => .ok (tss, wci)
  | fuel, t@(_ :: _), tss, vps, wci =>
    match staticSlice t with
    | .error e => .error e
    | .ok (staticStr, rest) =>
      let tss1 := if staticStr ≠ [] then tss ++ [TemplateSlice.static staticStr]
                  else tss
      if rest = [] then .ok (tss1, wci)
      else
        match dynamicSlice rest with
        | .error e => .error e
        | .ok (vName, pattern, rest') =>
          match appendDynamicSliceTo E tss1 vName pattern vps wci with
          | .error e => .error e
          | .ok (tss2, wci2, vps2) =>
            match fuel with
            | fuel' + 1 => parseLoopN E fuel' rest' tss2 vps2 wci2
            | 0 => .error .invalidTemplate  -- out of fuel: never reached

/-- The parse loop with its canonical fuel. -/
def parseLoop (E : RegexEngine) (t : GoStr) (tss : List TemplateSlice)
    (vps : List (GoStr × ValuePattern)) (wci : Int) :
    Except TErr (List TemplateSlice × Int) :=
  parseLoopN E t.length t tss vps wci

/-- Any fuel of at least the template string's length gives the same
result: the fuel is an artifact of the embedding, not of the loop. -/
theorem parseLoopN_fuel_irrel (E : RegexEngine) (f1 f2 : Nat) (t : GoStr)
    (tss : List TemplateSlice) (vps : List (GoStr × ValuePattern))
    (wci : Int) (h1 : t.length ≤ f1) (h2 : t.length ≤ f2) :
    parseLoopN E f1 t tss vps wci = parseLoopN E f2 t tss vps wci := by
  have main : ∀ (n f1 f2 : Nat) (t : GoStr) (tss : List TemplateSlice)
      (vps : List (GoStr × ValuePattern)) (wci : Int),
      t.length ≤ n → t.length ≤ f1 → t.length ≤ f2 →
      parseLoopN E f1 t tss vps wci = parseLoopN E f2 t tss vps wci := by
    intro n
    induction n with
    | zero =>
      intro f1 f2 t tss vps wci hn _ _
      cases t with
      | nil => cases f1 <;> cases f2 <;> rfl
      | cons c t0 => exact absurd hn (by simp)
    | succ n ih =>
      intro f1 f2 t tss vps wci hn hf1 hf2
      cases t with
      | nil => cases f1 <;> cases f2 <;> rfl
      | cons c t0 =>
        match f1, f2 with
        | 0, _ => exact absurd hf1 (by simp)
        | _ + 1, 0 => exact absurd hf2 (by simp)
        | g1 + 1, g2 + 1 =>
          simp only [parseLoopN]
          cases hs : staticSlice (c :: t0) with
          | error e => rfl
          | ok sr =>
            obtain ⟨staticStr, rest⟩ := sr
            simp only []
            by_cases hr : rest = []
            · simp [hr]
            · simp only [if_neg hr]
              cases hd : dynamicSlice rest with
              | error e => rfl
              | ok dr =>
                obtain ⟨vName, pattern, rest'⟩ := dr
                simp only []
                cases ha : appendDynamicSliceTo E
                    (if staticStr ≠ [] then
                      tss ++ [TemplateSlice.static staticStr] else tss)
                    vName pattern vps wci with
                | error e => rfl
                | ok ar =>
                  obtain ⟨tss2, wci2, vps2⟩ := ar
                  simp only []
                  have hrle : rest.length ≤ t0.length + 1 := by
                    simpa using staticSliceAux_rest_le (c :: t0) [] staticStr rest hs
                  have hrlt := dynamicSlice_rest_lt rest vName pattern rest' hd
                  have hn' : t0.length ≤ n := by simpa using hn
                  have hg1 : t0.length ≤ g1 := by simpa using hf1
                  have hg2 : t0.length ≤ g2 := by simpa using hf2
                  exact ih g1 g2 rest' tss2 vps2 wci2 (by omega) (by omega)
                    (by omega)
  exact main t.length f1 f2 t tss vps wci le_rfl h1 h2

/-- `parse`: parse a template content string into its slices and wildcard
index.  A template consisting of a single value-pattern slice gets its
pattern re-anchored with a final `$` so that it must match the whole
string. -/
def parse (E : RegexEngine) (t : GoStr) :
    Except TErr (List TemplateSlice × Int) :=
  if t = [] then .error .invalidTemplate
  else
    match parseLoop E t [] [] (-1) with
    | .error e => .error e
    | .ok (tss, wci) =>
      match tss with
      | [slc] =>
        match slc.valuePattern with
        | some vp =>
          match vp.re with
          | some re =>
            match E.compileRe (re.src ++ ['$']) with
            | none => .error .invalidRegex
            | some re' =>
              .ok ([TemplateSlice.dynamic ⟨vp.name, some re'⟩], wci)
          | none => .ok (tss, wci)
        | none => .ok (tss, wci)
      | _ => .ok (tss, wci)

/-- The value patterns of the dynamic slices of a slice list, in order. -/
def dynamicVPs (tss : List TemplateSlice) : List ValuePattern :=
  tss.filterMap (·.valuePattern)

/-- `TryToParse`: parse a full template string (name and content).  An
unnamed non-static template whose slices contain exactly one dynamic
slice takes that slice's value name as the template name. -/
def TryToParse (E : RegexEngine) (t : GoStr) : Except TErr Template :=
  if t = [] then .error .invalidTemplate
  else
    match templateNameAndContent t with
    | .error e => .error e
    | .ok (name, content) =>
      match parse E content with
      | .error e => .error e
      | .ok (slices, wci) =>
        let tmpl : Template := ⟨name, slices, wci⟩
        if ¬tmpl.IsStatic ∧ tmpl.name = [] then
          if tmpl.IsWildcard then
            .ok { tmpl with
                  name := ((slices.headI.valuePattern).map (·.name)).getD [] }
          else
            match dynamicVPs slices with
            | [vp] => .ok { tmpl with name := vp.name }
            | _ => .ok tmpl
        else .ok tmpl

/-! ## The URL splitter (`splitHostAndPath`, from utils.go) -/

/-- The common tail of `splitHostAndPath` after the host template and the
raw path template are separated: a bare `/` after a host becomes an empty
path with the trailing-slash bit; an empty relative path is the
invalid-template error (with the secure bit reset); a path longer than
one character ending in `/` has the slash stripped with the
trailing-slash bit set. -/
def splitTail (host path0 : GoStr) (secure0 : Bool) :
    GoStr × GoStr × Bool × Bool × Option TErr :=
  if host ≠ [] ∧ path0 = gs "/" then (host, [], secure0, true, none)
  else if host = [] ∧ path0 = [] then
    ([], [], false, false, some .invalidTemplate)
  else if path0.length - 1 > 0 ∧ path0.getLast? = some '/' then
    (host, path0.dropLast, secure0, true, none)
  else (host, path0, secure0, false, none)

/-- The absolute-URL branch of `splitHostAndPath`: everything up to the
first `/` is the host (everything, with an immediate return, when there
is no `/`). -/
def splitAbs (u1 : GoStr) (secure0 : Bool) :
    GoStr × GoStr × Bool × Bool × Option TErr :=
  match u1.findIdx? (fun c => c = '/') with
  | none => (u1, [], secure0, false, none)
  | some i => splitTail (u1.take i) (u1.drop i) secure0

/-- `splitHostAndPath`: split a URL template string into host template,
path template, the secure bit and the trailing-slash bit.  Mirrors the Go
function, which returns its partial named results together with the
error; the last component is the returned error (`none` on success). -/
def splitHostAndPath (urlTmplStr : GoStr) :
    GoStr × GoStr × Bool × Bool × Option TErr :=
  if urlTmplStr = [] then ([], [], false, false, some .invalidTemplate)
  else if (gs "https://").isPrefixOf urlTmplStr then
    splitAbs (urlTmplStr.drop 8) true
  else if (gs "http://").isPrefixOf urlTmplStr then
    splitAbs (urlTmplStr.drop 7) false
  else splitTail [] urlTmplStr false

/-! ## The responder tree (part_001)

A responder (`_ResponderBase`, embedded in `Host`/`Resource`) is modelled
as a tree node carrying its template, its config flags, whether it has
any request handler (`canHandleRequest`, whose handler table lives
outside src/ and is abstracted to a boolean), and its three child
buckets.  Parent back-pointers are not modelled: attachment is bucket
membership, and `setParent`'s root-resource check is performed where Go
performs it.  The static bucket (a Go map) is an association list in
insertion order. -/

/-- The error kinds of the responder tree (part_001's sentinel errors),
plus `goPanic` marking a Go nil-dereference crash and `outOfFuel`
marking exhausted recursion fuel (never reached with adequate fuel). -/
inductive TreeErr where
  | nilArgument
  | conflictingSecurity
  | conflictingTrailingSlash
  | conflictingConfig
  | nonRouterParent
  | registeredResource
  | duplicateResourceTemplate
  | duplicateNameInTheURL
  | duplicateValueNameInTheURL
  | duplicateNameAmongSiblings
  | differentTemplates
  | differentValueNames
  | differentNames
  | goPanic
  | outOfFuel
deriving DecidableEq, Repr

/-- The `_ConfigFlags` bit values. -/
def flagActive : Nat := 1
def flagSubtreeHandler : Nat := 2
def flagSecure : Nat := 4
def flagRedirectInsecure : Nat := 8
def flagTrailingSlash : Nat := 16
def flagStrictOnTrailingSlash : Nat := 32
def flagLeniencyOnTrailingSlash : Nat := 64
def flagLeniencyOnUncleanPath : Nat := 128
def flagHandleThePathAsIs : Nat :=
  flagLeniencyOnTrailingSlash ||| flagLeniencyOnUncleanPath

/-- `_ConfigFlags.has`: all the bits of `flags` are set. -/
def cfsHas (cfs flags : Nat) : Bool := cfs &&& flags = flags

/-- `_ConfigFlags.set`. -/
def cfsSet (cfs flags : Nat) : Nat := cfs ||| flags

/-- `configCompatibility`: on an unconfigured node (no `flagActive`),
configure it from the arguments; on a configured node check the secure
bit, the trailing-slash bit (unless lenient) and, when given, that every
bit of `cfs` is already set.  Returns the node's (possibly updated)
flags; Go mutates the node in place and returns the error. -/
def configCompatibility (cfs0 : Nat) (secure tslash : Bool)
    (cfs : Option Nat) : Except TreeErr Nat :=
  if cfsHas cfs0 flagActive then
    if cfsHas cfs0 flagSecure ≠ secure then .error .conflictingSecurity
    else if ¬cfsHas cfs0 flagLeniencyOnTrailingSlash ∧
        cfsHas cfs0 flagTrailingSlash ≠ tslash then
      .error .conflictingTrailingSlash
    else
      match cfs with
      | some c => if ¬cfsHas cfs0 c then .error .conflictingConfig
                  else .ok cfs0
      | none => .ok cfs0
  else
    .ok (cfsSet (cfsSet (cfsSet (cfsSet cfs0 flagActive)
      (if secure then flagSecure else 0))
      (if tslash then flagTrailingSlash else 0))
      (cfs.getD 0))

/-- A responder node (`_ResponderBase` embedded in a `Host` or
`Resource`): kind, template, config flags, `canHandleRequest` (the
handler table is outside src/ and abstracted to this boolean), and the
three child buckets. -/
inductive RNode where
  | mk (isHost : Bool) (tmpl : Template) (cfs : Nat) (canHandle : Bool)
      (statics : List (GoStr × RNode)) (patterns : List RNode)
      (wildcard : Option RNode)

def RNode.isHost : RNode → Bool | .mk h _ _ _ _ _ _ => h
def RNode.tmpl : RNode → Template | .mk _ t _ _ _ _ _ => t
def RNode.cfs : RNode → Nat | .mk _ _ c _ _ _ _ => c
def RNode.canHandle : RNode → Bool | .mk _ _ _ ch _ _ _ => ch
def RNode.statics : RNode → List (GoStr × RNode) | .mk _ _ _ _ s _ _ => s
def RNode.patterns : RNode → List RNode | .mk _ _ _ _ _ p _ => p
def RNode.wildcard : RNode → Option RNode | .mk _ _ _ _ _ _ w => w

def RNode.withCfs : RNode → Nat → RNode
  | .mk h t _ ch s p w, c => .mk h t c ch s p w
def RNode.withStatics : RNode → List (GoStr × RNode) → RNode
  | .mk h t c ch _ p w, s => .mk h t c ch s p w
def RNode.withPatterns : RNode → List RNode → RNode
  | .mk h t c ch s _ w, p => .mk h t c ch s p w
def RNode.withWildcard : RNode → Option RNode → RNode
  | .mk h t c ch s p _, w => .mk h t c ch s p w

/-- Modelled from the spec: `Template.UnescapedContent` is not under
src/.  The spec keys static children "by the unescaped static content";
for a parsed template the static slices are already unescaped, so the
unescaped content is the concatenation of the static slices. -/
def Template.UnescapedContent (t : Template) : GoStr :=
  (t.slices.map (·.staticStr)).join

/-- Go map store into the static-children bucket (replace or append). -/
def assocSet (m : List (GoStr × RNode)) (k : GoStr) (v : RNode) :
    List (GoStr × RNode) :=
  if (m.find? (fun p => p.1 = k)).isSome then
    m.map (fun p => if p.1 = k then (k, v) else p)
  else m ++ [(k, v)]

/-- A position in a node's child buckets, identifying where
`resourceWithTemplate` found the child (Go works through the pointer). -/
inductive ChildPos where
  | static (key : GoStr)
  | pattern (i : Nat)
  | wildcard
deriving DecidableEq, Repr

/-- Read the child at a bucket position. -/
def RNode.getChild (rb : RNode) : ChildPos → Option RNode
  | .static key => ((rb.statics.find? (fun p => p.1 = key)).map (·.2))
  | .pattern i => rb.patterns.get? i
  | .wildcard => rb.wildcard

/-- Replace the child at a bucket position. -/
def RNode.setChild (rb : RNode) : ChildPos → RNode → RNode
  | .static key, v => rb.withStatics (assocSet rb.statics key v)
  | .pattern i, v => rb.withPatterns (rb.patterns.set i v)
  | .wildcard, v => rb.withWildcard (some v)

/-- The pattern-bucket scan of `resourceWithTemplate`: the first child
whose template is `TheSame` is returned; `DifferentValueNames` or
`DifferentNames` is an error; `Different` templates are skipped. -/
def rwtPatternLoop (tmpl : Template) (i : Nat) :
    List RNode → Except TreeErr (Option (ChildPos × RNode))
  | [] => .ok none
  | pr :: rest =>
    match pr.tmpl.SimilarityWith tmpl with
    | none => .error .goPanic
    | some .DifferentValueNames => .error .differentValueNames
    | some .DifferentNames => .error .differentNames
    | some .TheSame => .ok (some (.pattern i, pr))
    | some .Different => rwtPatternLoop tmpl (i + 1) rest

/-- `resourceWithTemplate`, with the found child's bucket position:
static templates are looked up by unescaped content (then the names must
agree); a wildcard template is compared with the wildcard child; other
templates scan the pattern bucket.  (Go's pointer-equality shortcut
`stmpl == tmpl` is subsumed: pointer-equal templates pass the
comparisons.) -/
def RNode.resourceWithTemplateP (rb : RNode) (tmpl : Template) :
    Except TreeErr (Option (ChildPos × RNode)) :=
  if tmpl.IsStatic then
    match rb.statics.find? (fun p => p.1 = tmpl.UnescapedContent) with
    | some p =>
      if p.2.tmpl.name ≠ tmpl.name then .error .differentNames
      else .ok (some (.static p.1, p.2))
    | none => .ok none
  else if tmpl.IsWildcard then
    match rb.wildcard with
    | some w =>
      match w.tmpl.SimilarityWith tmpl with
      | none => .error .goPanic
      | some .DifferentValueNames => .error .differentValueNames
      | some .DifferentNames => .error .differentNames
      | some .TheSame => .ok (some (.wildcard, w))
      | some .Different => .ok none  -- Go falls out of the switch: nil, nil
    | none => .ok none
  else rwtPatternLoop tmpl 0 rb.patterns

/-- `resourceWithTemplate` as in the source (position projected away). -/
def RNode.resourceWithTemplate (rb : RNode) (tmpl : Template) :
    Except TreeErr (Option RNode) :=
  (rb.resourceWithTemplateP tmpl).map (fun o => o.map (·.2))

/-- `registerResource`: insert `r` into the bucket its template selects,
then `setParent` — which fails when `r` is a root resource (`/`) and the
parent is not a router.  Go inserts before the parent check, so the
bucket keeps `r` even on error; the returned node reflects that. -/
def RNode.registerResource (rb : RNode) (r : RNode) :
    RNode × Option TreeErr :=
  let rb' :=
    if r.tmpl.IsStatic then
      rb.withStatics (assocSet rb.statics r.tmpl.UnescapedContent r)
    else if r.tmpl.IsWildcard then rb.withWildcard (some r)
    else rb.withPatterns (rb.patterns ++ [r])
  if r.tmpl.UnescapedContent = gs "/" then (rb', some .nonRouterParent)
  else (rb', none)

/-- A pending call of the mutually recursive collision-resolution trio
`keepResourceOrItsChildResources` / `passChildResourcesTo` / the bucket
loop inside it.  The trio is embedded as one fuel-indexed dispatcher
(`treeGo`) so that the recursion is structural (kernel-computable). -/
inductive TreeCall where
  | keep (rb r : RNode)
  | passChildren (src target : RNode)
  | passList (cs : List RNode) (target : RNode)

/-- The result of a `TreeCall`: `nodes a b err` for `keep` (updated
parent, updated incoming resource) and `passChildren` (updated source,
updated target); `listOut target cs err` for the bucket loop (updated
target, the children with the processed prefix updated in place — Go
mutates them through the bucket's pointers). -/
inductive TreeOut where
  | nodes (a b : RNode) (err : Option TreeErr)
  | listOut (target : RNode) (cs : List RNode) (err : Option TreeErr)

/-- The collision-resolution trio as one dispatcher, structurally
recursive on the fuel (each recursive call spends one unit; the
callers' `treeFuel` budget covers any reachable depth).

* `keep rb r` is `keepResourceOrItsChildResources`: look the colliding
  child up, register `r` when there is none, otherwise check config
  compatibility (updating the child's flags in place when it was not yet
  configured) and then move the children of whichever of `r`/`rwt`
  cannot handle a request into the other, replacing `rwt` by `r` in the
  parent's bucket in the second case, or fail with
  `duplicateResourceTemplate` when both can handle requests.
* `passChildren src target` is `passChildResourcesTo`: pass the static,
  pattern and wildcard children in turn, clearing the buckets only after
  every transfer succeeded.
* `passList cs target` is one bucket's loop of `passChildResourcesTo`. -/
def treeGo : Nat → TreeCall → TreeOut
  | 0, .keep rb r => .nodes rb r (some .outOfFuel)
  | 0, .passChildren src target => .nodes src target (some .outOfFuel)
  | 0, .passList cs target => .listOut target cs (some .outOfFuel)
  | fuel + 1, .keep rb r =>
    match rb.resourceWithTemplateP r.tmpl with
    | .error e => .nodes rb r (some e)
    | .ok none =>
      match rb.registerResource r with
      | (rb', err) => .nodes rb' r err
    | .ok (some (pos, rwt)) =>
      let rcfs := r.cfs
      match configCompatibility rwt.cfs (cfsHas rcfs flagSecure)
          (cfsHas rcfs flagTrailingSlash) (some rcfs) with
      | .error e => .nodes rb r (some e)
      | .ok newCfs =>
        let rwt1 := rwt.withCfs newCfs
        let rb1 := rb.setChild pos rwt1
        if ¬r.canHandle then
          match treeGo fuel (.passChildren r rwt1) with
          | .nodes r' rwt2 err => .nodes (rb1.setChild pos rwt2) r' err
          | .listOut _ _ _ => .nodes rb r (some .outOfFuel)  -- unreachable
        else if ¬rwt.canHandle then
          match treeGo fuel (.passChildren rwt1 r) with
          | .nodes rwt2 r' (some e) =>
            .nodes (rb1.setChild pos rwt2) r' (some e)
          | .nodes _ r' none =>
            -- replaceResource: put r' where rwt was; newR.setParent fails
            -- for a root resource under a non-router parent
            if r'.tmpl.UnescapedContent = gs "/" then
              .nodes (rb1.setChild pos r') r' (some .nonRouterParent)
            else .nodes (rb1.setChild pos r') r' none
          | .listOut _ _ _ => .nodes rb r (some .outOfFuel)  -- unreachable
        else .nodes rb1 r (some .duplicateResourceTemplate)
  | fuel + 1, .passChildren src target =>
    let keys := src.statics.map (·.1)
    match treeGo fuel (.passList (src.statics.map (·.2)) target) with
    | .listOut t1 schn (some e) =>
      .nodes (src.withStatics (keys.zip schn)) t1 (some e)
    | .listOut t1 schn none =>
      match treeGo fuel (.passList src.patterns t1) with
      | .listOut t2 pchn (some e) =>
        .nodes ((src.withStatics (keys.zip schn)).withPatterns pchn) t2
          (some e)
      | .listOut t2 pchn none =>
        match src.wildcard with
        | some w =>
          match treeGo fuel (.keep t2 w) with
          | .nodes t3 w' (some e) =>
            .nodes (((src.withStatics (keys.zip schn)).withPatterns
              pchn).withWildcard (some w')) t3 (some e)
          | .nodes t3 _ none =>
            .nodes (((src.withStatics []).withPatterns []).withWildcard
              none) t3 none
          | .listOut _ _ _ => .nodes src target (some .outOfFuel)
        | none =>
          .nodes (((src.withStatics []).withPatterns []).withWildcard none)
            t2 none
      | .nodes _ _ _ => .nodes src target (some .outOfFuel)  -- unreachable
    | .nodes _ _ _ => .nodes src target (some .outOfFuel)  -- unreachable
  | fuel + 1, .passList cs target =>
    match cs with
    | [] => .listOut target [] none
    | c :: rest =>
      match treeGo fuel (.keep target c) with
      | .nodes target' c' (some e) => .listOut target' (c' :: rest) (some e)
      | .nodes target' c' none =>
        match treeGo fuel (.passList rest target') with
        | .listOut target'' rest' err => .listOut target'' (c' :: rest') err
        | .nodes _ _ _ => .listOut target cs (some .outOfFuel)  -- unreachable
      | .listOut _ _ _ => .listOut target cs (some .outOfFuel)  -- unreachable

/-- `keepResourceOrItsChildResources`, as (updated parent, updated
incoming resource, error). -/
def keepR (fuel : Nat) (rb r : RNode) : RNode × RNode × Option TreeErr :=
  match treeGo fuel (.keep rb r) with
  | .nodes rb' r' err => (rb', r', err)
  | .listOut _ _ _ => (rb, r, some .outOfFuel)  -- unreachable

/-- `passChildResourcesTo`, as (updated source, updated target, error). -/
def passChildrenR (fuel : Nat) (src target : RNode) :
    RNode × RNode × Option TreeErr :=
  match treeGo fuel (.passChildren src target) with
  | .nodes src' target' err => (src', target', err)
  | .listOut _ _ _ => (src, target, some .outOfFuel)  -- unreachable

/-- `ChildResourceNamed`: the direct child with the given name, looked
for in the wildcard slot, then the pattern bucket in registration order,
then the static bucket; `nil` for the empty name. -/
def RNode.childResourceNamed (rb : RNode) (name : GoStr) : Option RNode :=
  if name = [] then none
  else
    match rb.wildcard with
    | some w =>
      if w.tmpl.Name = name then some w
      else
        match rb.patterns.find? (fun r => r.tmpl.Name = name) with
        | some r => some r
        | none => (rb.statics.find? (fun p => p.2.tmpl.Name = name)).map (·.2)
    | none =>
      match rb.patterns.find? (fun r => r.tmpl.Name = name) with
      | some r => some r
      | none => (rb.statics.find? (fun p => p.2.tmpl.Name = name)).map (·.2)

/-- Modelled from the spec: `Template.ValueNames` is not under src/; per
the data model, the value names of a template are the names of its
dynamic slices (none for a purely static template). -/
def Template.ValueNames (t : Template) : List GoStr :=
  (dynamicVPs t.slices).map (·.name)

/-- Modelled from the spec: `Template.HasValueName` is not under src/;
it reports whether any of the given names is a value name of the
template. -/
def Template.HasValueName (t : Template) (names : List GoStr) : Bool :=
  names.any (fun n => (t.ValueNames).contains n)

/-- `checkNamesAreUniqueInTheURL`: walking the responder chain upwards
(`chain` holds the templates of the receiver and its ancestors, receiver
first), the template's name must not reoccur as a responder name and its
value names must not reoccur in an ancestor template. -/
def checkNamesAreUniqueInTheURL (chain : List Template) (tmpl : Template) :
    Option TreeErr :=
  let vns := tmpl.ValueNames
  if tmpl.name = [] ∧ vns = [] then none
  else
    let rec walk : List Template → Option TreeErr
      | [] => none
      | rt :: rest =>
        if tmpl.name ≠ [] ∧ rt.name = tmpl.name then
          some .duplicateNameInTheURL
        else if rt.HasValueName vns then
          some .duplicateValueNameInTheURL
        else walk rest
    walk chain

/-- The recursion of `checkNamesOfTheChildrenAreUniqueInTheURL` over the
pending resources: check each resource's template against the receiver's
chain, then its own children, then its siblings.  Fuel-indexed for
structural recursion. -/
def checkChildNamesList (chain : List Template) :
    Nat → List RNode → Option TreeErr
  | 0, _ => some .outOfFuel
  | _ + 1, [] => none
  | fuel + 1, chr :: rest =>
    match checkNamesAreUniqueInTheURL chain chr.tmpl with
    | some e => some e
    | none =>
      match checkChildNamesList chain fuel
          (chr.statics.map (·.2) ++ chr.patterns ++ chr.wildcard.toList) with
      | some e => some e
      | none => checkChildNamesList chain fuel rest

/-- `checkNamesOfTheChildrenAreUniqueInTheURL`: nothing to check on a
host receiver; otherwise every descendant of `r` is checked with
`checkNamesAreUniqueInTheURL` against the receiver's chain. -/
def checkChildNames (isHost : Bool) (chain : List Template) (fuel : Nat)
    (r : RNode) : Option TreeErr :=
  if isHost then none
  else checkChildNamesList chain fuel
    (r.statics.map (·.2) ++ r.patterns ++ r.wildcard.toList)

mutual
/-- The number of nodes of a responder subtree. -/
def RNode.size : RNode → Nat
  | .mk _ _ _ _ s p w => 1 + sizeStatics s + sizePatterns p + sizeWild w
def sizeStatics : List (GoStr × RNode) → Nat
  | [] => 0
  | (_, r) :: rest => RNode.size r + sizeStatics rest
def sizePatterns : List RNode → Nat
  | [] => 0
  | r :: rest => RNode.size r + sizePatterns rest
def sizeWild : Option RNode → Nat
  | none => 0
  | some r => RNode.size r
end

/-- The fuel budget used by the top-level operations: strictly more than
any recursion depth reachable from the two nodes. -/
def treeFuel (rb r : RNode) : Nat := rb.size + r.size + 1

/-- `RegisterResource` for a resource carrying no URL template (the
constructors that attach URL templates live outside src/): nil and root
checks, the registered-resource check (`rHasParent` stands for Go's
`r.parent() != nil`), name-uniqueness validation against the receiver's
chain (`anc` holds the templates of the receiver's ancestors; the
receiver's own template heads the chain, as Go's walk starts at the
receiver), then collision resolution.  Returns the updated receiver and
the error. -/
def RegisterResource (rb : RNode) (anc : List Template)
    (rOpt : Option RNode) (rHasParent : Bool) : RNode × Option TreeErr :=
  match rOpt with
  | none => (rb, some .nilArgument)
  | some r =>
    if r.tmpl.UnescapedContent = gs "/" then (rb, some .nonRouterParent)
    else if rHasParent then (rb, some .registeredResource)
    else
      match checkNamesAreUniqueInTheURL (rb.tmpl :: anc) r.tmpl with
      | some e => (rb, some e)
      | none =>
        match checkChildNames rb.isHost (rb.tmpl :: anc) (treeFuel rb r) r with
        | some e => (rb, some e)
        | none =>
          match keepR (treeFuel rb r) rb r with
          | (rb', _, err) => (rb', err)

/-! ## Concrete regex engines used by witnesses and counterexamples -/

/-- A total engine whose regexes never match: enough wherever only
compilation success and source strings matter. -/
def unitEngine : RegexEngine := ⟨fun _ => some ⟨fun _ => none, fun _ => []⟩⟩

/-- The matching semantics of the regex `^a` (the leftmost match on `s`
is `[0,1)` exactly when `s` starts with `a`; with the `^` anchor there is
no other match). -/
def caretASem : RegexSem :=
  { find := fun s => if s.head? = some 'a' then some (0, 1) else none,
    findAll := fun s => if s.head? = some 'a' then [(0, 1)] else [] }

/-- An engine defined on the single pattern `^a` (all this file's uses
compile only that pattern). -/
def caretAEngine : RegexEngine :=
  ⟨fun src => if src = gs "^a" then some caretASem else none⟩

/-! ## C6 — configCompatibility -/

/-- C6: `configCompatibility(secure, tslash, cfs)` on a node without the
active flag sets the node's flags from the arguments (active, plus
secure, trailing-slash, and the cfs bits when given) and returns no
error; on an active node it returns conflicting-security exactly when
the secure flags differ, otherwise conflicting-trailing-slash exactly
when the node is not lenient on the trailing slash and the
trailing-slash flags differ, otherwise (cfs given) conflicting-config
exactly when some bit of cfs is unset in the node's flags, and otherwise
no error with the flags unchanged. -/
theorem C6_configCompatibility (cfs0 : Nat) (secure tslash : Bool)
    (cfs : Option Nat) :
    (cfsHas cfs0 flagActive = false →
      configCompatibility cfs0 secure tslash cfs =
        .ok (cfs0 ||| flagActive ||| (if secure then flagSecure else 0) |||
          (if tslash then flagTrailingSlash else 0) ||| cfs.getD 0)) ∧
    (cfsHas cfs0 flagActive = true →
      ((configCompatibility cfs0 secure tslash cfs =
          .error .conflictingSecurity ↔ cfsHas cfs0 flagSecure ≠ secure) ∧
       (configCompatibility cfs0 secure tslash cfs =
          .error .conflictingTrailingSlash ↔
            cfsHas cfs0 flagSecure = secure ∧
            cfsHas cfs0 flagLeniencyOnTrailingSlash = false ∧
            cfsHas cfs0 flagTrailingSlash ≠ tslash) ∧
       (configCompatibility cfs0 secure tslash cfs =
          .error .conflictingConfig ↔
            cfsHas cfs0 flagSecure = secure ∧
            (cfsHas cfs0 flagLeniencyOnTrailingSlash = true ∨
              cfsHas cfs0 flagTrailingSlash = tslash) ∧
            (∃ c, cfs = some c ∧ cfsHas cfs0 c = false)) ∧
       (configCompatibility cfs0 secure tslash cfs = .ok cfs0 ↔
            cfsHas cfs0 flagSecure = secure ∧
            (cfsHas cfs0 flagLeniencyOnTrailingSlash = true ∨
              cfsHas cfs0 flagTrailingSlash = tslash) ∧
            (∀ c, cfs = some c → cfsHas cfs0 c = true)))) := by
  constructor
  · intro hact
    simp [configCompatibility, hact, cfsSet]
  · intro hact
    simp only [configCompatibility, hact, if_true]
    by_cases hsec : cfsHas cfs0 flagSecure = secure
    · by_cases hlen : cfsHas cfs0 flagLeniencyOnTrailingSlash = true
      · cases cfs with
        | none => simp [hsec, hlen]
        | some c =>
          by_cases hc : cfsHas cfs0 c = true <;> simp [hsec, hlen, hc]
      · by_cases hts : cfsHas cfs0 flagTrailingSlash = tslash
        · cases cfs with
          | none => simp [hsec, hlen, hts]
          | some c =>
            by_cases hc : cfsHas cfs0 c = true <;> simp [hsec, hlen, hts, hc]
        · cases cfs with
          | none => simp [hsec, hlen, hts]
          | some c => simp [hsec, hlen, hts]
    · simp [hsec]

/-- C6 witness: a concrete active node (flags = active|secure) with
matching arguments passes with its flags unchanged. -/
theorem C6_witness :
    configCompatibility 5 true false (some 5) = .ok 5 :=
  (((C6_configCompatibility 5 true false (some 5)).2 (by decide)).2.2.2).2
    (by decide)

/-! ## C10 — ChildResourceNamed -/

/-- `find?` over a projected list, in terms of `find?` on the original
association list. -/
theorem find?_map_snd (l : List (GoStr × RNode)) (p : RNode → Bool) :
    (l.map (·.2)).find? p = (l.find? (fun q => p q.2)).map (·.2) := by
  induction l with
  | nil => rfl
  | cons q rest ih =>
    by_cases hq : p q.2
    · simp [List.find?_cons, hq]
    · simp [List.find?_cons, hq, ih]

/-- C10: `ChildResourceNamed(name)` returns nil for the empty name and
otherwise the first child whose template name equals `name`, searching
the wildcard child, then the pattern children in registration order,
then the static children. -/
theorem C10_childResourceNamed (rb : RNode) (name : GoStr) :
    rb.childResourceNamed name =
      if name = [] then none
      else (rb.wildcard.toList ++ rb.patterns ++
        rb.statics.map (·.2)).find? (fun r => r.tmpl.Name = name) := by
  by_cases hn : name = []
  · simp [RNode.childResourceNamed, hn]
  · rw [if_neg hn]
    rw [List.find?_append, List.find?_append, find?_map_snd]
    simp only [RNode.childResourceNamed, if_neg hn]
    cases hw : rb.wildcard with
    | none =>
      simp only [Option.toList, List.find?_nil, Option.none_orElse]
      cases hp : rb.patterns.find? (fun r => r.tmpl.Name = name) with
      | none =>
        simp [hp]
      | some r => simp [hp]
    | some w =>
      by_cases hwn : w.tmpl.Name = name
      · simp [Option.toList, hwn]
      · have hd : (decide (w.tmpl.Name = name)) = false := by simp [hwn]
        simp only [Option.toList, List.find?_cons, hd, List.find?_nil,
          Option.none_orElse, cond_false]
        cases hp : rb.patterns.find? (fun r => r.tmpl.Name = name) with
        | none => simp [hp, hwn]
        | some r => simp [hp, hwn]

/-! ## C9 — splitHostAndPath -/

/-- `findIdx?` of the separator over `host ++ p` when the host is free of
slashes and `p` starts with one. -/
theorem findIdx_slash (host p : GoStr) (hh : ∀ c ∈ host, c ≠ '/')
    (hp : p.head? = some '/') :
    (host ++ p).findIdx? (fun c => c = '/') = some host.length := by
  induction host with
  | nil =>
    cases p with
    | nil => simp at hp
    | cons c rest =>
      simp only [List.head?_cons, Option.some.injEq] at hp
      simp [List.findIdx?_cons, hp]
  | cons c host ih =>
    have hc : c ≠ '/' := hh c (by simp)
    rw [List.cons_append, List.findIdx?_cons, if_neg (by simp [hc]),
      List.findIdx?_succ, ih (fun d hd => hh d (by simp [hd]))]
    rfl

/-- A list is a prefix of itself followed by anything. -/
theorem isPrefixOf_append_self (l r : List Char) :
    l.isPrefixOf (l ++ r) = true := by
  rw [List.isPrefixOf_iff_prefix]
  exact List.prefix_append l r

/-- `https://` is not a prefix of an `http://` URL. -/
theorem https_not_prefixOf_http (rest : GoStr) :
    (gs "https://").isPrefixOf (gs "http://" ++ rest) = false := by
  simp [gs, List.isPrefixOf]

/-- Evaluation of `splitHostAndPath` on an absolute URL template whose
host is slash-free and whose path starts with `/`. -/
theorem splitHostAndPath_abs (sch host p : GoStr)
    (hsch : sch = gs "https://" ∨ sch = gs "http://")
    (hh : ∀ c ∈ host, c ≠ '/') (hp : p.head? = some '/') :
    splitHostAndPath (sch ++ (host ++ p)) =
      splitTail host p (decide (sch = gs "https://")) := by
  have habs : splitAbs (host ++ p) (decide (sch = gs "https://")) =
      splitTail host p (decide (sch = gs "https://")) := by
    rw [splitAbs, findIdx_slash host p hh hp]
    simp only [List.take_left, List.drop_left]
  rcases hsch with h | h <;> subst h
  · have hne : gs "https://" ++ (host ++ p) ≠ [] := by simp [gs]
    rw [splitHostAndPath, if_neg hne,
      if_pos (isPrefixOf_append_self (gs "https://") (host ++ p))]
    rw [show (8 : Nat) = (gs "https://").length from rfl, List.drop_left]
    simpa using habs
  · have hne : gs "http://" ++ (host ++ p) ≠ [] := by simp [gs]
    rw [splitHostAndPath, if_neg hne]
    rw [https_not_prefixOf_http (host ++ p)]
    rw [if_neg (by simp),
      if_pos (isPrefixOf_append_self (gs "http://") (host ++ p))]
    rw [show (7 : Nat) = (gs "http://").length from rfl, List.drop_left]
    have : (decide (gs "http://" = gs "https://")) = false := by
      simp [gs]
    rw [this] at habs ⊢
    exact habs

/-- Evaluation of `splitHostAndPath` on a relative URL template. -/
theorem splitHostAndPath_rel (u : GoStr) (hne : u ≠ [])
    (h1 : (gs "https://").isPrefixOf u = false)
    (h2 : (gs "http://").isPrefixOf u = false) :
    splitHostAndPath u = splitTail [] u false := by
  rw [splitHostAndPath, if_neg hne, h1, h2]
  simp

/-- C9: `splitHostAndPath` returns the invalid-template error on the
empty string; on success a non-empty host arises only from an
`https://`/`http://` prefix and the secure bit is set exactly for
`https://`; a host followed by exactly `/` yields an empty path with the
trailing-slash bit; and a path longer than one character ending in `/`
is returned with its final slash stripped and the trailing-slash bit
set — stated for relative URL templates and for absolute ones (scheme
and slash-free host prefix made explicit). -/
theorem C9_splitHostAndPath (u : GoStr) :
    (u = [] →
      splitHostAndPath u = ([], [], false, false, some .invalidTemplate)) ∧
    (∀ host path sec ts,
      splitHostAndPath u = (host, path, sec, ts, none) →
      (host ≠ [] →
        ((gs "https://").isPrefixOf u = true ∨
         (gs "http://").isPrefixOf u = true)) ∧
      (sec = true ↔ (gs "https://").isPrefixOf u = true)) ∧
    (∀ sch host, (sch = gs "https://" ∨ sch = gs "http://") →
      host ≠ [] → (∀ c ∈ host, c ≠ '/') → u = sch ++ (host ++ [('/')]) →
      splitHostAndPath u =
        (host, [], decide (sch = gs "https://"), true, none)) ∧
    (u ≠ [] → (gs "https://").isPrefixOf u = false →
      (gs "http://").isPrefixOf u = false →
      u.length > 1 → u.getLast? = some '/' →
      splitHostAndPath u = ([], u.dropLast, false, true, none)) ∧
    (∀ sch host p, (sch = gs "https://" ∨ sch = gs "http://") →
      (∀ c ∈ host, c ≠ '/') → p.head? = some '/' → p.length > 1 →
      p.getLast? = some '/' → u = sch ++ (host ++ p) →
      splitHostAndPath u =
        (host, p.dropLast, decide (sch = gs "https://"), true, none)) := by
  refine ⟨?_, ?_, ?_, ?_, ?_⟩
  · intro h; subst h; rfl
  · intro host path sec ts h
    by_cases hne : u = []
    · subst hne; simp [splitHostAndPath] at h
    by_cases h1 : (gs "https://").isPrefixOf u = true
    · obtain ⟨rest, hrest⟩ := List.isPrefixOf_iff_prefix.mp h1
      constructor
      · intro _; left; exact h1
      · subst hrest
        rw [splitHostAndPath, if_neg hne, if_pos h1,
          show (8 : Nat) = (gs "https://").length from rfl,
          List.drop_left] at h
        rw [splitAbs] at h
        cases hidx : rest.findIdx? (fun c => c = '/') with
        | none =>
          rw [hidx] at h
          simp only [Prod.mk.injEq] at h
          simp [h.2.2.1, h1]
        | some i =>
          rw [hidx] at h
          simp only [splitTail] at h
          split_ifs at h <;> simp only [Prod.mk.injEq] at h <;>
            first
            | exact (Option.noConfusion h.2.2.2.2)
            | simp [← h.2.2.1, h1]
    · have h1' : (gs "https://").isPrefixOf u = false := by
        simp only [Bool.not_eq_true] at h1; exact h1
      by_cases h2 : (gs "http://").isPrefixOf u = true
      · obtain ⟨rest, hrest⟩ := List.isPrefixOf_iff_prefix.mp h2
        constructor
        · intro _; right; exact h2
        · subst hrest
          rw [splitHostAndPath, if_neg hne, h1'] at h
          rw [if_neg (by simp), if_pos h2,
            show (7 : Nat) = (gs "http://").length from rfl,
            List.drop_left] at h
          rw [splitAbs] at h
          cases hidx : rest.findIdx? (fun c => c = '/') with
          | none =>
            rw [hidx] at h
            simp only [Prod.mk.injEq] at h
            simp [h.2.2.1, h1']
          | some i =>
            rw [hidx] at h
            simp only [splitTail] at h
            split_ifs at h <;> simp only [Prod.mk.injEq] at h <;>
              first
              | exact (Option.noConfusion h.2.2.2.2)
              | simp [← h.2.2.1, h1']
      · have h2' : (gs "http://").isPrefixOf u = false := by
          simp only [Bool.not_eq_true] at h2; exact h2
        rw [splitHostAndPath_rel u hne h1' h2'] at h
        simp only [splitTail] at h
        split_ifs at h <;> simp only [Prod.mk.injEq] at h <;>
          exact ⟨fun hh => absurd h.1.symm hh, by simp [← h.2.2.1, h1']⟩
  · intro sch host hsch hhost hh hu
    subst hu
    rw [splitHostAndPath_abs sch host [('/')] hsch hh (by rfl)]
    rw [splitTail, if_pos ⟨hhost, rfl⟩]
  · intro hne h1 h2 hlen hlast
    rw [splitHostAndPath_rel u hne h1 h2]
    rw [splitTail, if_neg (by simp), if_neg (by simp [hne]),
      if_pos ⟨by omega, hlast⟩]
  · intro sch host p hsch hh hhead hlen hlast hu
    subst hu
    rw [splitHostAndPath_abs sch host p hsch hh hhead]
    have hp1 : ¬(host ≠ [] ∧ p = gs "/") := by
      rintro ⟨_, hp⟩; rw [hp] at hlen; simp [gs] at hlen
    have hp2 : ¬(host = [] ∧ p = []) := by
      rintro ⟨_, hp⟩; rw [hp] at hlen; simp at hlen
    rw [splitTail, if_neg hp1, if_neg hp2, if_pos ⟨by omega, hlast⟩]

/-- C9 witness: `https://h/` — a secure host followed by exactly `/`. -/
theorem C9_witness :
    splitHostAndPath (gs "https://h/") = (gs "h", [], true, true, none) := by
  have := (C9_splitHostAndPath (gs "https://h/")).2.2.1 (gs "https://")
    (gs "h") (Or.inl rfl) (by decide) (by decide) (by rfl)
  simpa using this

/-! ## C1 — Match and the wildcard remainder -/

/-- C1 counterexample: the template `a{w}b` (parsed; wildcard at index 1,
three slices) matches `"ab"` — `Match` succeeds although the remainder
left for the wildcard is empty, and no value is recorded for `w`.  The
claim's "Match(s) succeeds only when a non-empty remainder is left for
the wildcard" is false on the code. -/
theorem C1_counterexample :
    (TryToParse unitEngine (gs "a\x7bw\x7db")).map
      (fun t => (t.wildCardIdx, t.slices.length, t.Match (gs "ab"))) =
    .ok (1, 3, (true, some [])) := rfl

/-- C1 (amended): for a template with a wildcard that is neither static
nor wildcard-only, `Match` succeeds whenever the left- and right-hand
consumption succeed, regardless of whether the remainder left for the
wildcard is empty; a non-empty remainder is recorded in the values map
under the wildcard's value name, while an empty remainder adds no
entry. -/
theorem C1_wildcard_remainder (t : Template) (s rem : GoStr) (vs : Values)
    (vp : ValuePattern)
    (h1 : t.IsStatic = false) (h2 : t.IsWildcard = false)
    (hw : t.wildCardIdx ≥ 0)
    (hvp : (t.slices.get? t.wildCardIdx.toNat).bind (·.valuePattern) =
      some vp)
    (hm : t.matchParts s = some (rem, vs)) :
    (t.Match s).1 = true ∧
    (rem ≠ [] → (t.Match s).2 = some (insertVal vs vp.name rem)) ∧
    (rem = [] → (t.Match s).2 = some vs) := by
  simp only [Template.Match, h1, h2, Bool.false_eq_true, if_false, hm]
  by_cases hrem : rem = []
  · have : ¬(t.wildCardIdx ≥ 0 ∧ rem.length > 0) := by
      rintro ⟨_, hl⟩; rw [hrem] at hl; simp at hl
    rw [if_neg this]
    exact ⟨rfl, fun h => absurd hrem h, fun _ => rfl⟩
  · have hlen : rem.length > 0 := by
      cases rem with
      | nil => exact absurd rfl hrem
      | cons c r => simp
    rw [if_pos ⟨hw, hlen⟩, hvp]
    exact ⟨rfl, fun _ => rfl, fun h => absurd h hrem⟩

/-- The witness template `a{w}b` (what `a{w}b` parses to). -/
def demoWcTmpl : Template :=
  ⟨gs "w", [TemplateSlice.static (gs "a"),
    TemplateSlice.dynamic ⟨gs "w", none⟩,
    TemplateSlice.static (gs "b")], 1⟩

/-- C1 witness: on `"axb"` the non-empty remainder `x` is recorded under
`w`. -/
theorem C1_witness :
    demoWcTmpl.Match (gs "axb") = (true, some [(gs "w", gs "x")]) := by
  have h := C1_wildcard_remainder demoWcTmpl (gs "axb") (gs "x") []
    ⟨gs "w", none⟩ rfl rfl (by decide) rfl rfl
  have h2 := h.2.1 (by decide)
  exact Prod.ext h.1 (by simpa [insertVal] using h2)

/-! ## C3 — Apply and the invalid-value check -/

/-- C3 counterexample: in the parsed template `x{id:a}` the slice's
regex is `^a`, whose leftmost match on the supplied value `"ab"` is the
proper prefix `[0,1)` — not the whole value — yet `Apply` accepts it and
produces `"xab"`.  The claim's "a value on which the regex matches only
a proper prefix … is rejected" is false on the code: the check
`idxs[0] != 0 && idxs[1] != len(v)` only rejects matches that touch
neither end. -/
theorem C3_counterexample :
    (TryToParse caretAEngine (gs "x\x7bid:a\x7d")).map
      (fun t => t.Apply [(gs "id", gs "ab")] false) =
    .ok (.ok (gs "xab")) := rfl

/-- `applyLoop` splits over list append, propagating the first error. -/
theorem applyLoop_append (values : Values) (im : Bool)
    (xs ys : List TemplateSlice) :
    applyLoop values im (xs ++ ys) =
      (applyLoop values im xs).bind
        (fun s => (applyLoop values im ys).map (fun r => s ++ r)) := by
  induction xs with
  | nil =>
    simp only [List.nil_append, applyLoop, Except.bind]
    cases applyLoop values im ys with
    | error e => rfl
    | ok s => simp [Except.map]
  | cons slc rest ih =>
    simp only [List.cons_append, applyLoop]
    cases hs : applySlice values im slc with
    | error e => rfl
    | ok s =>
      simp only [List.append_eq] at ih ⊢
      rw [ih]
      cases applyLoop values im rest with
      | error e => rfl
      | ok s' =>
        cases applyLoop values im ys with
        | error e => rfl
        | ok s'' => simp [Except.bind, Except.map, List.append_assoc]

/-- C3 (amended): `Apply` fails with the invalid-value error for the
value supplied to a pattern slice exactly when the regex has no match on
the value or its leftmost match neither starts at the beginning nor ends
at the end of the value; a match that touches either end (in particular
one covering only a proper prefix or suffix) is accepted and the value
is substituted.  A value missing from the map is skipped when
`ignoreMissing` is set and otherwise fails with the missing-value
error. -/
theorem C3_apply (vp : ValuePattern) (re : Regexp) (values : Values)
    (im : Bool) (pre post : List TemplateSlice) (nm : GoStr) (wci : Int)
    (s0 : GoStr)
    (hre : vp.re = some re)
    (hpre : applyLoop values im pre = .ok s0) :
    (∀ v, lookupVal values vp.name = some v →
      ((re.sem.find v = none ∨
        (∃ a b, re.sem.find v = some (a, b) ∧ a ≠ 0 ∧ b ≠ v.length)) →
        Template.Apply ⟨nm, pre ++ TemplateSlice.dynamic vp :: post, wci⟩
          values im = .error (.invalidValue vp.name)) ∧
      (∀ a b, re.sem.find v = some (a, b) → (a = 0 ∨ b = v.length) →
        Template.Apply ⟨nm, pre ++ TemplateSlice.dynamic vp :: post, wci⟩
          values im =
          (applyLoop values im post).map (fun r => s0 ++ (v ++ r)))) ∧
    (lookupVal values vp.name = none →
      (im = true →
        Template.Apply ⟨nm, pre ++ TemplateSlice.dynamic vp :: post, wci⟩
          values im = (applyLoop values im post).map (fun r => s0 ++ r)) ∧
      (im = false →
        Template.Apply ⟨nm, pre ++ TemplateSlice.dynamic vp :: post, wci⟩
          values im = .error (.missingValue vp.name))) := by
  have hstep : ∀ out, applySlice values im (TemplateSlice.dynamic vp) = out →
      Template.Apply ⟨nm, pre ++ TemplateSlice.dynamic vp :: post, wci⟩
        values im =
        (out.bind fun v =>
          (applyLoop values im post).map (fun r => s0 ++ (v ++ r))) := by
    intro out hout
    show applyLoop values im (pre ++ TemplateSlice.dynamic vp :: post) = _
    rw [applyLoop_append, hpre]
    show (applyLoop values im (TemplateSlice.dynamic vp :: post)).map
        (fun r => s0 ++ r) = _
    simp only [applyLoop, hout]
    cases out with
    | error e => rfl
    | ok v =>
      simp only []
      cases applyLoop values im post with
      | error e => rfl
      | ok r => simp [Except.map, Except.bind]
  constructor
  · intro v hv
    constructor
    · intro hbad
      have hslice : applySlice values im (TemplateSlice.dynamic vp) =
          .error (.invalidValue vp.name) := by
        rcases hbad with hnone | ⟨a, b, hab, ha, hb⟩
        · simp [applySlice, TemplateSlice.dynamic, hv, hre, hnone]
        · simp [applySlice, TemplateSlice.dynamic, hv, hre, hab, ha, hb]
      rw [hstep _ hslice]
      rfl
    · intro a b hab hok
      have hslice : applySlice values im (TemplateSlice.dynamic vp) =
          .ok v := by
        rcases hok with h | h
        · subst h
          simp [applySlice, TemplateSlice.dynamic, hv, hre, hab]
        · subst h
          simp [applySlice, TemplateSlice.dynamic, hv, hre, hab]
      rw [hstep _ hslice]
      rfl
  · intro hv
    constructor
    · intro him
      have hslice : applySlice values im (TemplateSlice.dynamic vp) =
          .ok [] := by
        simp [applySlice, TemplateSlice.dynamic, hv, him]
      rw [hstep _ hslice]
      cases applyLoop values im post with
      | error e => rfl
      | ok r => simp [Except.map, Except.bind]
    · intro him
      have hslice : applySlice values im (TemplateSlice.dynamic vp) =
          .error (.missingValue vp.name) := by
        simp [applySlice, TemplateSlice.dynamic, hv, him]
      rw [hstep _ hslice]
      rfl

/-- The regex `^a` as a compiled value. -/
def caretARe : Regexp := ⟨gs "^a", caretASem⟩

/-- C3 witness: the proper-prefix match `^a` on `"ab"` is accepted and
substituted after the static `x`. -/
theorem C3_witness :
    Template.Apply ⟨gs "id", [TemplateSlice.static (gs "x"),
        TemplateSlice.dynamic ⟨gs "id", some caretARe⟩], -1⟩
      [(gs "id", gs "ab")] false = .ok (gs "xab") := by
  have h := (C3_apply ⟨gs "id", some caretARe⟩ caretARe
    [(gs "id", gs "ab")] false [TemplateSlice.static (gs "x")] []
    (gs "id") (-1) (gs "x") rfl rfl).1 (gs "ab") rfl
  have h2 := h.2 0 1 rfl (Or.inl rfl)
  simpa using h2

/-! ## C2 — re-anchoring the recorded patterns at the first wildcard -/

/-- `rewriteVps` with a total engine succeeds and rewrites every entry:
the regex source loses its first character and gains a final `$`, the
entry's name is preserved. -/
theorem rewriteVps_spec (E : RegexEngine)
    (hE : ∀ s, (E.compile s).isSome = true)
    (vps : List (GoStr × ValuePattern)) :
    ∃ vps', rewriteVps E vps = .ok vps' ∧ vps'.length = vps.length ∧
      ∀ i p, vps.get? i = some p →
        ∃ re', vps'.get? i = some (p.2.name, ⟨p.2.name, some re'⟩) ∧
          re'.src = ((p.2.re.map (·.src)).getD []).tail ++ [('$')] := by
  induction vps with
  | nil => exact ⟨[], rfl, rfl, fun i p h => by simp at h⟩
  | cons q rest ih =>
    obtain ⟨k, vp⟩ := q
    obtain ⟨vps', hvps', hlen, hspec⟩ := ih
    obtain ⟨sem, hsem⟩ := Option.isSome_iff_exists.mp
      (hE (((vp.re.map (·.src)).getD []).tail ++ [('$')]))
    refine ⟨(vp.name, ⟨vp.name,
      some ⟨((vp.re.map (·.src)).getD []).tail ++ [('$')], sem⟩⟩) :: vps',
      ?_, by simp [hlen], ?_⟩
    · simp [rewriteVps, RegexEngine.compileRe, hsem, hvps']
    · intro i p hp
      cases i with
      | zero =>
        simp only [List.get?_cons_zero, Option.some.injEq] at hp
        subst hp
        exact ⟨_, rfl, rfl⟩
      | succ i =>
        simp only [List.get?_cons_succ] at hp ⊢
        exact hspec i p hp

/-- C2: when `appendDynamicSliceTo` introduces the first wildcard (no
wildcard yet, an absent pattern, a fresh value name), it appends the
wildcard slice, records its index, and rewrites the regex of every
previously recorded value pattern from the start-anchored `^x` to the
end-anchored `x$` (in general, from `s` to `s[1:] + "$"`), so that every
recorded pattern is end-anchored afterwards.  Stated for an engine on
which the rewritten patterns compile, as they do in Go. -/
theorem C2_firstWildcardRewrite (E : RegexEngine) (tss : List TemplateSlice)
    (vName : GoStr) (vps : List (GoStr × ValuePattern)) (wci : Int)
    (hE : ∀ s, (E.compile s).isSome = true)
    (hfresh : vps.find? (fun p => p.1 = vName) = none)
    (hwci : wci < 0) :
    ∃ vps', appendDynamicSliceTo E tss vName [] vps wci =
        .ok (tss ++ [TemplateSlice.dynamic ⟨vName, none⟩],
          (tss.length : Int), vps') ∧
      vps'.length = vps.length ∧
      (∀ i p x re, vps.get? i = some p → p.2.re = some re →
        re.src = '^' :: x →
        ∃ re', vps'.get? i = some (p.2.name, ⟨p.2.name, some re'⟩) ∧
          re'.src = x ++ [('$')] ∧ re'.src.getLast? = some '$') := by
  obtain ⟨vps', hvps', hlen, hspec⟩ := rewriteVps_spec E hE vps
  refine ⟨vps', ?_, hlen, ?_⟩
  · have hge : ¬wci ≥ 0 := by omega
    simp only [appendDynamicSliceTo, hfresh, Option.map_none, hge,
      if_false, if_pos rfl, hvps']
    rfl
  · intro i p x re hp hre hsrc
    obtain ⟨re', hre', hsrc'⟩ := hspec i p hp
    refine ⟨re', hre', ?_, ?_⟩
    · rw [hsrc']; simp [hre, hsrc]
    · rw [hsrc', hre]; simp

/-- C2 witness: a map holding `v ↦ ^p` is rewritten to `v ↦ p$` when the
wildcard `{w}` is appended after one pattern slice. -/
theorem C2_witness :
    ∃ vps', appendDynamicSliceTo unitEngine
        [TemplateSlice.dynamic ⟨gs "v", some ⟨gs "^p", ⟨fun _ => none,
          fun _ => []⟩⟩⟩]
        (gs "w") [] [(gs "v", ⟨gs "v", some ⟨gs "^p", ⟨fun _ => none,
          fun _ => []⟩⟩⟩)] (-1) =
      .ok ([TemplateSlice.dynamic ⟨gs "v", some ⟨gs "^p", ⟨fun _ => none,
          fun _ => []⟩⟩⟩] ++ [TemplateSlice.dynamic ⟨gs "w", none⟩],
        (1 : Int), vps') ∧
      ∃ re', vps'.get? 0 = some (gs "v", ⟨gs "v", some re'⟩) ∧
        re'.src = gs "p$" := by
  obtain ⟨vps', heq, _, hspec⟩ := C2_firstWildcardRewrite unitEngine
    [TemplateSlice.dynamic ⟨gs "v", some ⟨gs "^p", ⟨fun _ => none,
      fun _ => []⟩⟩⟩]
    (gs "w") [(gs "v", ⟨gs "v", some ⟨gs "^p", ⟨fun _ => none,
      fun _ => []⟩⟩⟩)] (-1)
    (fun _ => rfl) rfl (by decide)
  obtain ⟨re', hre', hsrc, _⟩ := hspec 0 _ (gs "p") _ rfl rfl rfl
  exact ⟨vps', by simpa using heq, re', hre', by simpa using hsrc⟩

/-! ## C8 — similarity: reflexive, but symmetric only where neither
direction panics -/

/-- `IsStatic` characterised: a single slice with a non-empty static
string. -/
theorem isStatic_iff (t : Template) :
    t.IsStatic = true ↔ ∃ slc, t.slices = [slc] ∧ slc.staticStr ≠ [] := by
  cases h : t.slices with
  | nil => simp [Template.IsStatic, h]
  | cons a l =>
    cases l with
    | nil => simp [Template.IsStatic, h]
    | cons b l' => simp [Template.IsStatic, h]

/-- `IsWildcard` characterised: a single slice carrying a regex-free
value pattern. -/
theorem isWildcard_iff (t : Template) :
    t.IsWildcard = true ↔
      ∃ slc vp, t.slices = [slc] ∧ slc.valuePattern = some vp ∧
        vp.re = none := by
  cases h : t.slices with
  | nil => simp [Template.IsWildcard, h]
  | cons a l =>
    cases l with
    | nil =>
      cases hv : a.valuePattern with
      | none => simp [Template.IsWildcard, h, hv]
      | some vp => simp [Template.IsWildcard, h, hv, Option.isNone_iff_eq_none]
    | cons b l' => simp [Template.IsWildcard, h]

/-- The pairwise slice walk is reflexive whenever every dynamic slice
carries a value pattern (as every parsed slice does). -/
theorem similarityWalk_refl :
    ∀ (l : List TemplateSlice),
      (∀ slc ∈ l, slc.staticStr = [] → slc.valuePattern.isSome = true) →
      ∀ acc, similarityWalk l l acc = some acc
  | [], _, _ => rfl
  | slc :: rest, hwf, acc => by
    have hrec := similarityWalk_refl rest
      (fun s hs => hwf s (List.mem_cons_of_mem _ hs))
    by_cases hs : slc.staticStr = []
    · obtain ⟨vp, hvp⟩ := Option.isSome_iff_exists.mp
        (hwf slc (List.mem_cons_self _ _) hs)

      cases hre : vp.re with
      | some re => simp [similarityWalk, hs, hvp, hre, hrec]
      | none => simp [similarityWalk, hs, hvp, hre, hrec]
    · simp [similarityWalk, hs, hrec]

/-- The pairwise slice walk, run in both directions on well-formed
slices (no slice is both static and pattern-carrying), either panics in
one of the directions or returns the same similarity in both. -/
theorem similarityWalk_symm :
    ∀ (l1 l2 : List TemplateSlice),
      (∀ slc ∈ l1, slc.staticStr ≠ [] → slc.valuePattern.isNone = true) →
      (∀ slc ∈ l2, slc.staticStr ≠ [] → slc.valuePattern.isNone = true) →
      ∀ acc, similarityWalk l1 l2 acc = none ∨
        similarityWalk l2 l1 acc = none ∨
        similarityWalk l1 l2 acc = similarityWalk l2 l1 acc
  | [], [], _, _, _ => Or.inr (Or.inr rfl)
  | [], _ :: _, _, _, _ => Or.inl rfl
  | _ :: _, [], _, _, _ => Or.inr (Or.inl rfl)
  | slc1 :: r1, slc2 :: r2, h1, h2, acc => by
    have h1' := fun s hs => h1 s (List.mem_cons_of_mem _ hs)
    have h2' := fun s hs => h2 s (List.mem_cons_of_mem _ hs)
    have ih := similarityWalk_symm r1 r2 h1' h2'
    by_cases hs1 : slc1.staticStr = []
    · by_cases hs2 : slc2.staticStr = []
      · -- both dynamic
        cases hv1 : slc1.valuePattern with
        | none =>
          cases hv2 : slc2.valuePattern with
          | none => exact Or.inl (by simp [similarityWalk, hs1, hv1, hv2])
          | some vp2 => exact Or.inl (by simp [similarityWalk, hs1, hv1, hv2])
        | some vp1 =>
          cases hv2 : slc2.valuePattern with
          | none => exact Or.inl (by simp [similarityWalk, hs1, hv1, hv2])
          | some vp2 =>
            cases hre1 : vp1.re with
            | none =>
              cases hre2 : vp2.re with
              | none =>
                by_cases hn : vp1.name = vp2.name
                · rcases ih acc with h | h | h
                  · exact Or.inl (by
                      simp [similarityWalk, hs1, hs2, hv1, hv2, hre1, hre2,
                        hn, h])
                  · exact Or.inr (Or.inl (by
                      simp [similarityWalk, hs1, hs2, hv1, hv2, hre1, hre2,
                        hn, h]))
                  · exact Or.inr (Or.inr (by
                      simp [similarityWalk, hs1, hs2, hv1, hv2, hre1, hre2,
                        hn, h]))
                · rcases ih Similarity.DifferentValueNames with h | h | h
                  · exact Or.inl (by
                      simp [similarityWalk, hs1, hs2, hv1, hv2, hre1, hre2,
                        hn, Ne.symm hn, h])
                  · exact Or.inr (Or.inl (by
                      simp [similarityWalk, hs1, hs2, hv1, hv2, hre1, hre2,
                        hn, Ne.symm hn, h]))
                  · exact Or.inr (Or.inr (by
                      simp [similarityWalk, hs1, hs2, hv1, hv2, hre1, hre2,
                        hn, Ne.symm hn, h]))
              | some re2 =>
                exact Or.inr (Or.inr (by
                  simp [similarityWalk, hs1, hs2, hv1, hv2, hre1, hre2]))
            | some re1 =>
              cases hre2 : vp2.re with
              | none =>
                exact Or.inr (Or.inr (by
                  simp [similarityWalk, hs1, hs2, hv1, hv2, hre1, hre2]))
              | some re2 =>
                by_cases hsrc : re1.src = re2.src
                · by_cases hn : vp1.name = vp2.name
                  · rcases ih acc with h | h | h
                    · exact Or.inl (by
                        simp [similarityWalk, hs1, hs2, hv1, hv2, hre1, hre2,
                          hsrc, hn, h])
                    · exact Or.inr (Or.inl (by
                        simp [similarityWalk, hs1, hs2, hv1, hv2, hre1, hre2,
                          hsrc, hn, h]))
                    · exact Or.inr (Or.inr (by
                        simp [similarityWalk, hs1, hs2, hv1, hv2, hre1, hre2,
                          hsrc, hn, h]))
                  · rcases ih Similarity.DifferentValueNames with h | h | h
                    · exact Or.inl (by
                        simp [similarityWalk, hs1, hs2, hv1, hv2, hre1, hre2,
                          hsrc, hn, Ne.symm hn, h])
                    · exact Or.inr (Or.inl (by
                        simp [similarityWalk, hs1, hs2, hv1, hv2, hre1, hre2,
                          hsrc, hn, Ne.symm hn, h]))
                    · exact Or.inr (Or.inr (by
                        simp [similarityWalk, hs1, hs2, hv1, hv2, hre1, hre2,
                          hsrc, hn, Ne.symm hn, h]))
                · exact Or.inr (Or.inr (by
                    simp [similarityWalk, hs1, hs2, hv1, hv2, hre1, hre2,
                      hsrc, Ne.symm hsrc]))
      · -- slc1 dynamic, slc2 static: the forward walk panics
        have hv2 : slc2.valuePattern = none :=
          Option.isNone_iff_eq_none.mp (h2 slc2 (List.mem_cons_self _ _) hs2)
        cases hv1 : slc1.valuePattern with
        | none => exact Or.inl (by simp [similarityWalk, hs1, hv1, hv2])
        | some vp1 => exact Or.inl (by simp [similarityWalk, hs1, hv1, hv2])
    · by_cases hs2 : slc2.staticStr = []
      · -- slc1 static, slc2 dynamic: the backward walk panics
        have hv1 : slc1.valuePattern = none :=
          Option.isNone_iff_eq_none.mp (h1 slc1 (List.mem_cons_self _ _) hs1)
        cases hv2 : slc2.valuePattern with
        | none =>
          exact Or.inr (Or.inl (by simp [similarityWalk, hs2, hv1, hv2]))
        | some vp2 =>
          exact Or.inr (Or.inl (by simp [similarityWalk, hs2, hv1, hv2]))
      · -- both static
        by_cases heq : slc1.staticStr = slc2.staticStr
        · rcases ih acc with h | h | h
          · exact Or.inl (by simp [similarityWalk, hs1, hs2, heq, h])
          · exact Or.inr (Or.inl (by simp [similarityWalk, hs1, hs2, heq, h]))
          · exact Or.inr (Or.inr (by simp [similarityWalk, hs1, hs2, heq, h]))
        · exact Or.inr (Or.inr (by
            simp [similarityWalk, hs1, hs2, heq, Ne.symm heq]))

/-- `SimilarityWith`, run in both directions on well-formed templates,
either panics in one direction or agrees in both. -/
theorem simWith_symm (a b : Template)
    (hwa : ∀ slc ∈ a.slices, slc.staticStr ≠ [] →
      slc.valuePattern.isNone = true)
    (hwb : ∀ slc ∈ b.slices, slc.staticStr ≠ [] →
      slc.valuePattern.isNone = true) :
    a.SimilarityWith b = none ∨ b.SimilarityWith a = none ∨
      a.SimilarityWith b = b.SimilarityWith a := by
  by_cases hsta : a.IsStatic = true
  · by_cases hstb : b.IsStatic = true
    · right; right
      obtain ⟨slca, hsla, hnea⟩ := (isStatic_iff a).mp hsta
      obtain ⟨slcb, hslb, hneb⟩ := (isStatic_iff b).mp hstb
      by_cases heq : slca.staticStr = slcb.staticStr
      · by_cases hname : a.name = b.name
        · simp [Template.SimilarityWith, hsta, hstb, hsla, hslb, heq, hname]
        · simp [Template.SimilarityWith, hsta, hstb, hsla, hslb, heq, hname,
            Ne.symm hname]
      · simp [Template.SimilarityWith, hsta, hstb, hsla, hslb, heq,
          Ne.symm heq]
    · right; right
      obtain ⟨slca, hsla, hnea⟩ := (isStatic_iff a).mp hsta
      have hmema : slca ∈ a.slices := by
        rw [hsla]; exact List.mem_cons_self _ _
      have hva : slca.valuePattern = none :=
        Option.isNone_iff_eq_none.mp (hwa slca hmema hnea)
      have hnwa : ¬ a.IsWildcard = true := by
        intro hw
        obtain ⟨slc, vp, hsl', hvp', _⟩ := (isWildcard_iff a).mp hw
        rw [hsla] at hsl'
        injection hsl' with hsl1 _
        rw [← hsl1, hva] at hvp'
        exact Option.noConfusion hvp'
      have hnwa' : a.IsWildcard = false := by
        cases hx : a.IsWildcard with
        | false => rfl
        | true => exact absurd hx hnwa
      by_cases hwcb : b.IsWildcard = true
      · simp [Template.SimilarityWith, hsta, hstb, hwcb, hnwa']
      · simp [Template.SimilarityWith, hsta, hstb, hwcb]
  · by_cases hstb : b.IsStatic = true
    · right; right
      obtain ⟨slcb, hslb, hneb⟩ := (isStatic_iff b).mp hstb
      have hmemb : slcb ∈ b.slices := by
        rw [hslb]; exact List.mem_cons_self _ _
      have hvb : slcb.valuePattern = none :=
        Option.isNone_iff_eq_none.mp (hwb slcb hmemb hneb)
      have hnwb : ¬ b.IsWildcard = true := by
        intro hw
        obtain ⟨slc, vp, hsl', hvp', _⟩ := (isWildcard_iff b).mp hw
        rw [hslb] at hsl'
        injection hsl' with hsl1 _
        rw [← hsl1, hvb] at hvp'
        exact Option.noConfusion hvp'
      have hnwb' : b.IsWildcard = false := by
        cases hx : b.IsWildcard with
        | false => rfl
        | true => exact absurd hx hnwb
      by_cases hwca : a.IsWildcard = true
      · simp [Template.SimilarityWith, hsta, hstb, hwca, hnwb']
      · simp [Template.SimilarityWith, hsta, hstb, hwca]
    · by_cases hwca : a.IsWildcard = true
      · by_cases hwcb : b.IsWildcard = true
        · right; right
          obtain ⟨slca, vpa, hsla, hvpa, hrea⟩ := (isWildcard_iff a).mp hwca
          obtain ⟨slcb, vpb, hslb, hvpb, hreb⟩ := (isWildcard_iff b).mp hwcb
          by_cases hvn : vpa.name = vpb.name
          · by_cases hname : a.name = b.name
            · simp [Template.SimilarityWith, hsta, hstb, hwca, hwcb, hsla,
                hslb, hvpa, hvpb, hvn, hname]
            · simp [Template.SimilarityWith, hsta, hstb, hwca, hwcb, hsla,
                hslb, hvpa, hvpb, hvn, hname, Ne.symm hname]
          · simp [Template.SimilarityWith, hsta, hstb, hwca, hwcb, hsla,
              hslb, hvpa, hvpb, hvn, Ne.symm hvn]
        · right; right
          simp [Template.SimilarityWith, hsta, hstb, hwca, hwcb]
      · by_cases hwcb : b.IsWildcard = true
        · right; right
          simp [Template.SimilarityWith, hsta, hstb, hwca, hwcb]
        · by_cases hwci : a.wildCardIdx = b.wildCardIdx
          · by_cases hlen : a.slices.length = b.slices.length
            · rcases similarityWalk_symm a.slices b.slices hwa hwb
                Similarity.TheSame with h | h | h
              · exact Or.inl (by
                  simp [Template.SimilarityWith, hsta, hstb, hwca, hwcb,
                    hwci, hlen, h])
              · exact Or.inr (Or.inl (by
                  simp [Template.SimilarityWith, hsta, hstb, hwca, hwcb,
                    hwci, hlen, h]))
              · right; right
                cases hres : similarityWalk a.slices b.slices
                    Similarity.TheSame with
                | none =>
                  have hres2 : similarityWalk b.slices a.slices
                      Similarity.TheSame = none := h ▸ hres
                  simp [Template.SimilarityWith, hsta, hstb, hwca, hwcb,
                    hwci, hlen, hres, hres2]
                | some sres =>
                  have hres2 : similarityWalk b.slices a.slices
                      Similarity.TheSame = some sres := h ▸ hres
                  cases sres with
                  | TheSame =>
                    by_cases hname : a.name = b.name
                    · simp [Template.SimilarityWith, hsta, hstb, hwca, hwcb,
                        hwci, hlen, hres, hres2, hname]
                    · simp [Template.SimilarityWith, hsta, hstb, hwca, hwcb,
                        hwci, hlen, hres, hres2, hname, Ne.symm hname]
                  | Different =>
                    simp [Template.SimilarityWith, hsta, hstb, hwca, hwcb,
                      hwci, hlen, hres, hres2]
                  | DifferentNames =>
                    simp [Template.SimilarityWith, hsta, hstb, hwca, hwcb,
                      hwci, hlen, hres, hres2]
                  | DifferentValueNames =>
                    simp [Template.SimilarityWith, hsta, hstb, hwca, hwcb,
                      hwci, hlen, hres, hres2]
            · right; right
              simp [Template.SimilarityWith, hsta, hstb, hwca, hwcb, hwci,
                hlen, Ne.symm hlen]
          · right; right
            simp [Template.SimilarityWith, hsta, hstb, hwca, hwcb, hwci,
              Ne.symm hwci]

/-- C8 counterexample: parsing `x\x7ba:p\x7d` and `\x7ba:p\x7dx` gives
two templates whose similarity is `Different` in one direction but a
nil-pointer panic (modelled `none`) in the other: `SimilarityWith` is
not symmetric, even on parsed templates. -/
theorem C8_counterexample :
    (TryToParse unitEngine (gs "x\x7ba:p\x7d")).map (fun a =>
      (TryToParse unitEngine (gs "\x7ba:p\x7dx")).map (fun b =>
        (a.SimilarityWith b, b.SimilarityWith a))) =
    .ok (.ok (some Similarity.Different, (none : Option Similarity))) := rfl

/-- C8 (amended): on well-formed templates — every slice either static
(non-empty static string, no value pattern) or dynamic (empty static
string, with a value pattern), as the parser produces — similarity is
reflexive with result `TheSame`, and it is symmetric whenever both
directions return a result (one direction may panic on the nil value
pattern of a static slice while the other returns `Different`, as the
counterexample shows). -/
theorem C8_similarity (a b : Template)
    (hwa : ∀ slc ∈ a.slices,
      (slc.staticStr = [] → slc.valuePattern.isSome = true) ∧
      (slc.staticStr ≠ [] → slc.valuePattern.isNone = true))
    (hwb : ∀ slc ∈ b.slices,
      (slc.staticStr = [] → slc.valuePattern.isSome = true) ∧
      (slc.staticStr ≠ [] → slc.valuePattern.isNone = true)) :
    a.SimilarityWith a = some Similarity.TheSame ∧
    ∀ s s', a.SimilarityWith b = some s → b.SimilarityWith a = some s' →
      s' = s := by
  constructor
  · by_cases hst : a.IsStatic = true
    · obtain ⟨slc, hsl, hne⟩ := (isStatic_iff a).mp hst
      simp [Template.SimilarityWith, hst, hsl]
    · by_cases hwc : a.IsWildcard = true
      · obtain ⟨slc, vp, hsl, hvp, hre⟩ := (isWildcard_iff a).mp hwc
        simp [Template.SimilarityWith, hst, hwc, hsl, hvp]
      · have hwalk := similarityWalk_refl a.slices
          (fun s hs => (hwa s hs).1) Similarity.TheSame
        simp [Template.SimilarityWith, hst, hwc, hwalk]
  · intro s s' hf hb
    rcases simWith_symm a b (fun slc h => (hwa slc h).2)
        (fun slc h => (hwb slc h).2) with h | h | h
    · rw [h] at hf; exact Option.noConfusion hf
    · rw [h] at hb; exact Option.noConfusion hb
    · rw [h] at hf
      rw [hb] at hf
      exact Option.some.inj hf

/-- C8 witness: reflexivity and (vacuous-free) symmetry at a concrete
static template. -/
theorem C8_witness :
    (⟨gs "t", [⟨gs "x", none⟩], -1⟩ : Template).SimilarityWith
      ⟨gs "t", [⟨gs "x", none⟩], -1⟩ = some Similarity.TheSame :=
  (C8_similarity ⟨gs "t", [⟨gs "x", none⟩], -1⟩
    ⟨gs "t", [⟨gs "x", none⟩], -1⟩ (by decide) (by decide)).1

/-! ## C4 — the three branches of `keepResourceOrItsChildResources` -/

/-- A successful `passChildResourcesTo` empties every child bucket of the
source node. -/
theorem passChildren_success_empty (fuel : Nat) (s t s' t' : RNode)
    (h : treeGo fuel (.passChildren s t) = .nodes s' t' none) :
    s'.statics = [] ∧ s'.patterns = [] ∧ s'.wildcard = none := by
  cases fuel with
  | zero => simp [treeGo] at h
  | succ f =>
    rw [treeGo.eq_def] at h
    simp only [] at h
    cases h1 : treeGo f (.passList (s.statics.map (·.2)) t) with
    | nodes a b e => rw [h1] at h; simp at h
    | listOut t1 schn eo =>
      rw [h1] at h
      cases eo with
      | some e => simp at h
      | none =>
        simp only [] at h
        cases h2 : treeGo f (.passList s.patterns t1) with
        | nodes a b e => rw [h2] at h; simp at h
        | listOut t2 pchn eo2 =>
          rw [h2] at h
          cases eo2 with
          | some e => simp at h
          | none =>
            simp only [] at h
            cases hw : s.wildcard with
            | some w =>
              rw [hw] at h
              simp only [] at h
              cases h3 : treeGo f (.keep t2 w) with
              | listOut a b e => rw [h3] at h; simp at h
              | nodes t3 w' eo3 =>
                rw [h3] at h
                cases eo3 with
                | some e => simp at h
                | none =>
                  simp only [TreeOut.nodes.injEq] at h
                  obtain ⟨hs', _, _⟩ := h
                  subst hs'
                  cases s with
                  | mk ih tm c ch st pt wd =>
                    simp [RNode.withStatics, RNode.withPatterns,
                      RNode.withWildcard, RNode.statics, RNode.patterns,
                      RNode.wildcard]
            | none =>
              rw [hw] at h
              simp only [TreeOut.nodes.injEq] at h
              obtain ⟨hs', _, _⟩ := h
              subst hs'
              cases s with
              | mk ih tm c ch st pt wd =>
                simp [RNode.withStatics, RNode.withPatterns,
                  RNode.withWildcard, RNode.statics, RNode.patterns,
                  RNode.wildcard]

/-- C4: with the colliding child `rwt` found at bucket position `pos` and
the config-compatibility check passing (the child's flags updated in
place to `newCfs`), `keepResourceOrItsChildResources` takes exactly the
claimed branches: when `r` has no request handlers, `r`'s children are
passed into the (reconfigured) `rwt`, which stays at its bucket position,
and on success `r` is left with empty child buckets; when only `rwt` has
no request handlers, `rwt`'s children are passed into `r` and `r`
replaces `rwt` at the bucket position (on success `rwt` is left empty,
and the subsequent `setParent` of the replacement only fails for a root
resource under a non-router parent); when both can handle requests, the
registration fails with the duplicate-resource-template error and the
tree keeps only the flag update. -/
theorem C4_keepResource (fuel : Nat) (rb r rwt : RNode) (pos : ChildPos)
    (newCfs : Nat)
    (hfind : rb.resourceWithTemplateP r.tmpl = .ok (some (pos, rwt)))
    (hcfg : configCompatibility rwt.cfs (cfsHas r.cfs flagSecure)
      (cfsHas r.cfs flagTrailingSlash) (some r.cfs) = .ok newCfs) :
    (r.canHandle = false →
      ∀ r' rwt2 err,
        treeGo fuel (.passChildren r (rwt.withCfs newCfs)) =
          .nodes r' rwt2 err →
        keepR (fuel + 1) rb r =
          ((rb.setChild pos (rwt.withCfs newCfs)).setChild pos rwt2, r',
            err) ∧
        (err = none → r'.statics = [] ∧ r'.patterns = [] ∧
          r'.wildcard = none)) ∧
    (r.canHandle = true → rwt.canHandle = false →
      ∀ rwt2 r' e,
        treeGo fuel (.passChildren (rwt.withCfs newCfs) r) =
          .nodes rwt2 r' (some e) →
        keepR (fuel + 1) rb r =
          ((rb.setChild pos (rwt.withCfs newCfs)).setChild pos rwt2, r',
            some e)) ∧
    (r.canHandle = true → rwt.canHandle = false →
      ∀ rwt2 r',
        treeGo fuel (.passChildren (rwt.withCfs newCfs) r) =
          .nodes rwt2 r' none →
        keepR (fuel + 1) rb r =
          ((rb.setChild pos (rwt.withCfs newCfs)).setChild pos r', r',
            if r'.tmpl.UnescapedContent = gs "/" then some .nonRouterParent
            else none) ∧
        rwt2.statics = [] ∧ rwt2.patterns = [] ∧ rwt2.wildcard = none) ∧
    (r.canHandle = true → rwt.canHandle = true →
      keepR (fuel + 1) rb r =
        (rb.setChild pos (rwt.withCfs newCfs), r,
          some .duplicateResourceTemplate)) := by
  refine ⟨?_, ?_, ?_, ?_⟩
  · intro hch r' rwt2 err hpc
    constructor
    · simp [keepR, treeGo, hfind, hcfg, hch, hpc]
    · intro herr
      subst herr
      exact passChildren_success_empty fuel r (rwt.withCfs newCfs) r' rwt2 hpc
  · intro hch hrwt rwt2 r' e hpc
    simp [keepR, treeGo, hfind, hcfg, hch, hrwt, hpc]
  · intro hch hrwt rwt2 r' hpc
    refine ⟨?_, passChildren_success_empty fuel (rwt.withCfs newCfs) r rwt2
      r' hpc⟩
    by_cases hroot : r'.tmpl.UnescapedContent = gs "/"
    · simp [keepR, treeGo, hfind, hcfg, hch, hrwt, hpc, hroot]
    · simp [keepR, treeGo, hfind, hcfg, hch, hrwt, hpc, hroot]
  · intro hch hrwt
    simp [keepR, treeGo, hfind, hcfg, hch, hrwt]

/-- C4 witness: a duplicate static template under a parent, both nodes
able to handle requests: the duplicate-resource-template error, with the
child's flags configured in place. -/
theorem C4_witness :
    keepR 1
      (RNode.mk false (⟨gs "p", [⟨gs "p", none⟩], -1⟩ : Template) 0 true
        [(gs "x", RNode.mk false (⟨gs "x", [⟨gs "x", none⟩], -1⟩ : Template)
          0 true [] [] none)] [] none)
      (RNode.mk false (⟨gs "x", [⟨gs "x", none⟩], -1⟩ : Template) 0 true
        [] [] none) =
    ((RNode.mk false (⟨gs "p", [⟨gs "p", none⟩], -1⟩ : Template) 0 true
        [(gs "x", RNode.mk false (⟨gs "x", [⟨gs "x", none⟩], -1⟩ : Template)
          0 true [] [] none)] [] none).setChild (.static (gs "x"))
        ((RNode.mk false (⟨gs "x", [⟨gs "x", none⟩], -1⟩ : Template) 0 true
          [] [] none).withCfs 1),
      RNode.mk false (⟨gs "x", [⟨gs "x", none⟩], -1⟩ : Template) 0 true
        [] [] none,
      some TreeErr.duplicateResourceTemplate) :=
  (C4_keepResource 0
    (RNode.mk false (⟨gs "p", [⟨gs "p", none⟩], -1⟩ : Template) 0 true
      [(gs "x", RNode.mk false (⟨gs "x", [⟨gs "x", none⟩], -1⟩ : Template)
        0 true [] [] none)] [] none)
    (RNode.mk false (⟨gs "x", [⟨gs "x", none⟩], -1⟩ : Template) 0 true
      [] [] none)
    (RNode.mk false (⟨gs "x", [⟨gs "x", none⟩], -1⟩ : Template) 0 true
      [] [] none)
    (.static (gs "x")) 1 rfl rfl).2.2.2 rfl rfl

/-! ## C5 — which registration errors leave the tree unchanged -/

/-- A static template whose name is its content. -/
def staticTmpl (s : String) : Template :=
  ⟨gs s, [TemplateSlice.static (gs s)], -1⟩

/-- Counterexample scenario: the parent already holds `a` with child `x`;
the incoming `a` (no handlers) carries children `y` and `x`, whose `x`
collides with a handler on both sides mid-transfer. -/
def cpX : RNode := .mk false (staticTmpl "x") 1 true [] [] none

def cpA : RNode := .mk false (staticTmpl "a") 1 true [(gs "x", cpX)] [] none

def cpParent : RNode :=
  .mk true (staticTmpl "h") 1 true [(gs "a", cpA)] [] none

def cpY : RNode := .mk false (staticTmpl "y") 1 true [] [] none

def cpZ : RNode := .mk false (staticTmpl "x") 1 true [] [] none

def cpIncoming : RNode :=
  .mk false (staticTmpl "a") 0 false [(gs "y", cpY), (gs "x", cpZ)] [] none

/-- C5 counterexample: this registration fails with
duplicate-resource-template, yet the tree is left changed: the parent's
child `a` had one static child before the call and has two after it (the
incoming resource's child `y` was moved and not rolled back). -/
theorem C5_counterexample :
    (RegisterResource cpParent [] (some cpIncoming) false).2 =
        some TreeErr.duplicateResourceTemplate ∧
    (cpParent.statics.find? (fun p => p.1 = gs "a")).map
        (fun p => p.2.statics.length) = some 1 ∧
    ((RegisterResource cpParent [] (some cpIncoming) false).1.statics.find?
        (fun p => p.1 = gs "a")).map (fun p => p.2.statics.length) =
      some 2 := ⟨rfl, rfl, rfl⟩

/-- C5 (amended): every error raised before collision resolution — nil
argument, root resource under a non-router, already-registered resource,
duplicate name or value name in the URL (of the resource or of a
descendant) — and, within collision resolution, a template-comparison or
config-compatibility error, returns the receiver exactly as it was.  An
error raised later, during the child transfer, can leave the tree
changed (see the counterexample): partially moved children and in-place
flag updates are not rolled back. -/
theorem C5_registration (rb r : RNode) (anc : List Template) (hp : Bool)
    (hroot : r.tmpl.UnescapedContent ≠ gs "/") :
    RegisterResource rb anc none hp = (rb, some .nilArgument) ∧
    (∀ r', r'.tmpl.UnescapedContent = gs "/" →
      RegisterResource rb anc (some r') hp = (rb, some .nonRouterParent)) ∧
    (hp = true →
      RegisterResource rb anc (some r) hp = (rb, some .registeredResource)) ∧
    (∀ e, checkNamesAreUniqueInTheURL (rb.tmpl :: anc) r.tmpl = some e →
      RegisterResource rb anc (some r) false = (rb, some e)) ∧
    (checkNamesAreUniqueInTheURL (rb.tmpl :: anc) r.tmpl = none →
      ∀ e, checkChildNames rb.isHost (rb.tmpl :: anc) (treeFuel rb r) r =
          some e →
      RegisterResource rb anc (some r) false = (rb, some e)) ∧
    (checkNamesAreUniqueInTheURL (rb.tmpl :: anc) r.tmpl = none →
      checkChildNames rb.isHost (rb.tmpl :: anc) (treeFuel rb r) r = none →
      ∀ e, rb.resourceWithTemplateP r.tmpl = .error e →
      RegisterResource rb anc (some r) false = (rb, some e)) ∧
    (checkNamesAreUniqueInTheURL (rb.tmpl :: anc) r.tmpl = none →
      checkChildNames rb.isHost (rb.tmpl :: anc) (treeFuel rb r) r = none →
      ∀ pos rwt e, rb.resourceWithTemplateP r.tmpl = .ok (some (pos, rwt)) →
      configCompatibility rwt.cfs (cfsHas r.cfs flagSecure)
          (cfsHas r.cfs flagTrailingSlash) (some r.cfs) = .error e →
      RegisterResource rb anc (some r) false = (rb, some e)) := by
  have hfuel : treeFuel rb r = (rb.size + r.size) + 1 := rfl
  refine ⟨rfl, ?_, ?_, ?_, ?_, ?_, ?_⟩
  · intro r' hr'
    simp [RegisterResource, hr']
  · intro hhp
    subst hhp
    simp [RegisterResource, hroot]
  · intro e he
    simp [RegisterResource, hroot, he]
  · intro hnames e he
    simp [RegisterResource, hroot, hnames, he]
  · intro hnames hchild e he
    rw [hfuel] at hchild
    simp [RegisterResource, hroot, hnames, hchild, hfuel, keepR, treeGo, he]
  · intro hnames hchild pos rwt e hfind hcfg
    rw [hfuel] at hchild
    simp [RegisterResource, hroot, hnames, hchild, hfuel, keepR, treeGo,
      hfind, hcfg]

/-- C5 witness: registering an already-registered resource fails with
that error and returns the receiver unchanged. -/
theorem C5_witness :
    RegisterResource cpParent [] (some cpIncoming) true =
      (cpParent, some TreeErr.registeredResource) :=
  (C5_registration cpParent cpIncoming [] true (by decide)).2.2.1 rfl

/-! ## C7 — rendering and re-parsing -/

/-- C7 counterexample: the template parsed from `\x7bv:p\x7d` carries the
regex source `^p$`; re-parsing its rendered string succeeds but re-anchors
the already anchored source to `^^p$$` — the regex source strings are not
preserved by the round trip. -/
theorem C7_counterexample :
    (TryToParse unitEngine (gs "\x7bv:p\x7d")).map (fun t =>
      ((dynamicVPs t.slices).map (fun vp => (vp.re.map (·.src)).getD []),
       (TryToParse unitEngine t.StringRepr).map (fun t2 =>
         (dynamicVPs t2.slices).map (fun vp => (vp.re.map (·.src)).getD [])))) =
    .ok ([gs "^p$"], .ok [gs "^^p$$"]) := rfl

/-- `escapeColons` is the identity on colon-free strings. -/
theorem escapeColons_id (s : GoStr) (h : ¬ ':' ∈ s) : escapeColons s = s := by
  induction s with
  | nil => rfl
  | cons c rest ih =>
    have hc : c ≠ ':' := fun hh => h (hh ▸ List.mem_cons_self _ _)
    have hrest : ¬ ':' ∈ rest := fun hh => h (List.mem_cons_of_mem _ hh)
    simp [escapeColons, hc, ih hrest]

/-- The head of the reverse of a backslash-free string is not a
backslash. -/
theorem head_reverse_ne_backslash (s : GoStr) (h : ¬ '\\' ∈ s) :
    s.reverse.head? ≠ some '\\' := by
  intro hh
  have : '\\' ∈ s.reverse := by
    cases hrev : s.reverse with
    | nil => rw [hrev] at hh; exact Option.noConfusion hh
    | cons c cs =>
      rw [hrev] at hh
      simp only [List.head?_cons, Option.some.injEq] at hh
      rw [hh]
      exact List.mem_cons_self _ _
  exact h (List.mem_reverse.mp this)

/-- `staticSliceAux` consumes an escaped backslash-free string verbatim,
unescaping the braces, and goes on with the remainder. -/
theorem staticSliceAux_escape (s : GoStr) (h : ¬ '\\' ∈ s) :
    ∀ (acc : List Char) (r : GoStr),
      staticSliceAux (escapeBraces s ++ r) acc =
        staticSliceAux r (s.reverse ++ acc) := by
  induction s with
  | nil => intro acc r; rfl
  | cons c rest ih =>
    have hc : c ≠ '\\' := fun hh => h (hh ▸ List.mem_cons_self _ _)
    have hrest : ¬ '\\' ∈ rest := fun hh => h (List.mem_cons_of_mem _ hh)
    intro acc r
    by_cases hb : c = '{' ∨ c = '}'
    · rcases hb with hb | hb <;> subst hb <;>
        simp [escapeBraces, staticSliceAux, ih hrest]
    · push_neg at hb
      simp [escapeBraces, hb.1, hb.2, staticSliceAux, ih hrest]

/-- Escaping a non-empty string gives a non-empty string. -/
theorem escapeBraces_ne_nil (s : GoStr) (h : s ≠ []) :
    escapeBraces s ≠ [] := by
  cases s with
  | nil => exact absurd rfl h
  | cons c rest =>
    by_cases hb : c = '{' ∨ c = '}' <;> simp [escapeBraces, hb]

/-- `nameLoop` passes a colon-free prefix into the accumulator. -/
theorem nameLoop_append (name : GoStr) (h : ¬ ':' ∈ name) :
    ∀ (acc : List Char) (c : GoStr),
      nameLoop (name ++ ':' :: c) acc =
        nameLoop (':' :: c) (name.reverse ++ acc) := by
  induction name with
  | nil => intro acc c; simp
  | cons ch rest ih =>
    have hc : ch ≠ ':' := fun hh => h (hh ▸ List.mem_cons_self _ _)
    have hrest : ¬ ':' ∈ rest := fun hh => h (List.mem_cons_of_mem _ hh)
    intro acc c
    simp [nameLoop, hc, ih hrest]

/-- `nameLoop` splits `name:content` at the first colon when the name is
free of colons and backslashes. -/
theorem nameLoop_split (name : GoStr) (hcol : ¬ ':' ∈ name)
    (hbs : ¬ '\\' ∈ name) (c : GoStr) :
    nameLoop (name ++ ':' :: c) [] = (name, c) := by
  rw [nameLoop_append name hcol [] c]
  have hh : name.getLast? ≠ some '\\' := by
    rw [← List.head?_reverse]
    exact head_reverse_ne_backslash name hbs
  simp [nameLoop, hh]

/-- `dynVName` passes a value name free of braces and colons into the
accumulator. -/
theorem dynVName_append (n : GoStr) (h1 : ¬ '{' ∈ n) (h2 : ¬ '}' ∈ n)
    (h3 : ¬ ':' ∈ n) :
    ∀ (acc : List Char) (r : GoStr),
      dynVName (n ++ '}' :: r) 1 acc =
        dynVName ('}' :: r) 1 (n.reverse ++ acc) := by
  induction n with
  | nil => intro acc r; simp
  | cons ch rest ih =>
    have hc1 : ch ≠ '{' := fun hh => h1 (hh ▸ List.mem_cons_self _ _)
    have hc2 : ch ≠ '}' := fun hh => h2 (hh ▸ List.mem_cons_self _ _)
    have hc3 : ch ≠ ':' := fun hh => h3 (hh ▸ List.mem_cons_self _ _)
    have hr1 : ¬ '{' ∈ rest := fun hh => h1 (List.mem_cons_of_mem _ hh)
    have hr2 : ¬ '}' ∈ rest := fun hh => h2 (List.mem_cons_of_mem _ hh)
    have hr3 : ¬ ':' ∈ rest := fun hh => h3 (List.mem_cons_of_mem _ hh)
    intro acc r
    simp [dynVName, hc1, hc2, hc3, ih hr1 hr2 hr3]

/-- `dynVName` reads a well-formed wildcard value name up to the closing
brace. -/
theorem dynVName_split (n : GoStr) (hne : n ≠ []) (h1 : ¬ '{' ∈ n)
    (h2 : ¬ '}' ∈ n) (h3 : ¬ ':' ∈ n) (r : GoStr) :
    dynVName (n ++ '}' :: r) 1 [] = .ok (n, [], r) := by
  rw [dynVName_append n h1 h2 h3 [] r]
  have hnil : n.reverse ≠ [] := by simpa using hne
  simp [dynVName, hnil]

/-- `parseLoopN` on a trailing static slice, any fuel. -/
theorem parseLoopN_static_only (E : RegexEngine) (fuel : Nat) (s : GoStr)
    (hne : s ≠ []) (hbs : ¬ '\\' ∈ s) (tss : List TemplateSlice)
    (vps : List (GoStr × ValuePattern)) (wci : Int) :
    parseLoopN E fuel (escapeBraces s) tss vps wci =
      .ok (tss ++ [TemplateSlice.static s], wci) := by
  have hss : staticSlice (escapeBraces s) = .ok (s, []) := by
    unfold staticSlice
    have h0 := staticSliceAux_escape s hbs [] []
    rw [List.append_nil] at h0
    rw [h0]
    simp [staticSliceAux]
  obtain ⟨c0, ct, hC⟩ : ∃ c0 ct, escapeBraces s = c0 :: ct := by
    cases hE : escapeBraces s with
    | nil => exact absurd hE (escapeBraces_ne_nil s hne)
    | cons c0 ct => exact ⟨c0, ct, rfl⟩
  rw [hC]
  simp only [parseLoopN]
  rw [← hC, hss]
  simp [hne]

/-- `parseLoopN` on a leading wildcard slice: the empty static slice and
the wildcard are consumed in one iteration, the wildcard appended and its
index recorded. -/
theorem parseLoopN_wild (E : RegexEngine) (fuel : Nat) (n r : GoStr)
    (hn1 : n ≠ []) (hn2 : ¬ '{' ∈ n) (hn3 : ¬ '}' ∈ n)
    (hn4 : ¬ ':' ∈ n) (tss : List TemplateSlice) (wci : Int)
    (hwci : wci < 0) :
    parseLoopN E (fuel + 1) ('{' :: (n ++ '}' :: r)) tss [] wci =
      parseLoopN E fuel r (tss ++ [TemplateSlice.dynamic ⟨n, none⟩]) []
        ((tss.length : Int)) := by
  have hds : dynamicSlice ('{' :: (n ++ '}' :: r)) = .ok (n, [], r) := by
    simp only [dynamicSlice]
    exact dynVName_split n hn1 hn2 hn3 hn4 r
  have hge : ¬ wci ≥ 0 := by omega
  have happ : appendDynamicSliceTo E tss n [] [] wci =
      .ok (tss ++ [TemplateSlice.dynamic ⟨n, none⟩],
        ((tss.length : Int)), []) := by
    simp [appendDynamicSliceTo, hge, rewriteVps]
  simp only [parseLoopN]
  simp [staticSlice, staticSliceAux, hds, happ]

/-- `parseLoopN` on a non-empty static slice followed by a wildcard
slice: both are consumed in one iteration. -/
theorem parseLoopN_static_wild (E : RegexEngine) (fuel : Nat)
    (s n r : GoStr) (hne : s ≠ []) (hbs : ¬ '\\' ∈ s) (hn1 : n ≠ [])
    (hn2 : ¬ '{' ∈ n) (hn3 : ¬ '}' ∈ n) (hn4 : ¬ ':' ∈ n)
    (tss : List TemplateSlice) (wci : Int) (hwci : wci < 0) :
    parseLoopN E (fuel + 1) (escapeBraces s ++ '{' :: (n ++ '}' :: r))
        tss [] wci =
      parseLoopN E fuel r
        ((tss ++ [TemplateSlice.static s]) ++
          [TemplateSlice.dynamic ⟨n, none⟩]) []
        (((tss ++ [TemplateSlice.static s]).length : Int)) := by
  have hss : staticSlice (escapeBraces s ++ '{' :: (n ++ '}' :: r)) =
      .ok (s, '{' :: (n ++ '}' :: r)) := by
    unfold staticSlice
    rw [staticSliceAux_escape s hbs [] _]
    have hh : s.getLast? ≠ some '\\' := by
      rw [← List.head?_reverse]
      exact head_reverse_ne_backslash s hbs
    simp [staticSliceAux, hh]
  have hds : dynamicSlice ('{' :: (n ++ '}' :: r)) = .ok (n, [], r) := by
    simp only [dynamicSlice]
    exact dynVName_split n hn1 hn2 hn3 hn4 r
  have hge : ¬ wci ≥ 0 := by omega
  have happ : appendDynamicSliceTo E (tss ++ [TemplateSlice.static s])
      n [] [] wci =
      .ok ((tss ++ [TemplateSlice.static s]) ++
          [TemplateSlice.dynamic ⟨n, none⟩],
        (((tss ++ [TemplateSlice.static s]).length : Int)), []) := by
    simp [appendDynamicSliceTo, hge, rewriteVps]
  obtain ⟨c0, ct, hC⟩ :
      ∃ c0 ct, escapeBraces s ++ '{' :: (n ++ '}' :: r) = c0 :: ct := by
    cases hE : escapeBraces s ++ '{' :: (n ++ '}' :: r) with
    | nil =>
      exact absurd (List.append_eq_nil.mp hE).2 (by simp)
    | cons c0 ct => exact ⟨c0, ct, rfl⟩
  rw [hC]
  simp only [parseLoopN]
  rw [← hC, hss]
  simp [hne, hds, happ]

/-- `templateNameAndContent` recovers a rendered name part. -/
theorem templateNameAndContent_named (name c : GoStr) (hne : name ≠ [])
    (hcol : ¬ ':' ∈ name) (hbs : ¬ '\\' ∈ name) :
    templateNameAndContent ('$' :: (name ++ ':' :: c)) = .ok (name, c) := by
  have hrest : name ++ ':' :: c ≠ [] := by cases name <;> simp
  simp [templateNameAndContent, hrest, nameLoop_split name hcol hbs c]

/-- `StringRepr` of a named template, with a colon-free name, is
`$name:` followed by the rendered content. -/
theorem stringRepr_named (t : Template) (hname : t.name ≠ [])
    (hcol : ¬ ':' ∈ t.name) :
    t.StringRepr = '$' :: (t.name ++ ':' :: contentLoop t.slices []) := by
  unfold Template.StringRepr Template.Content
  cases hsl : t.slices with
  | nil => simp [hname, escapeColons_id t.name hcol, hsl]
  | cons a l => simp [hname, escapeColons_id t.name hcol, hsl]

/-- `parse` on a rendered single static slice. -/
theorem parse_static_single (E : RegexEngine) (s : GoStr) (hne : s ≠ [])
    (hbs : ¬ '\\' ∈ s) :
    parse E (escapeBraces s) = .ok ([TemplateSlice.static s], -1) := by
  have hplp : parseLoop E (escapeBraces s) [] [] (-1) =
      .ok ([TemplateSlice.static s], -1) := by
    unfold parseLoop
    simpa using parseLoopN_static_only E (escapeBraces s).length s hne hbs
      [] [] (-1)
  simp [parse, escapeBraces_ne_nil s hne, hplp, TemplateSlice.static]

/-- `parse` on a rendered single wildcard slice. -/
theorem parse_wild_single (E : RegexEngine) (n : GoStr) (hn1 : n ≠ [])
    (hn2 : ¬ '{' ∈ n) (hn3 : ¬ '}' ∈ n) (hn4 : ¬ ':' ∈ n) :
    parse E ('{' :: (n ++ '}' :: [])) =
      .ok ([TemplateSlice.dynamic ⟨n, none⟩], 0) := by
  have hplp : parseLoop E ('{' :: (n ++ '}' :: [])) [] [] (-1) =
      .ok ([TemplateSlice.dynamic ⟨n, none⟩], 0) := by
    unfold parseLoop
    rw [List.length_cons]
    rw [parseLoopN_wild E (n ++ '}' :: []).length n [] hn1 hn2 hn3 hn4 []
      (-1) (by decide)]
    simp [parseLoopN]
  simp [parse, hplp, TemplateSlice.dynamic]

/-- `parse` on a rendered static slice followed by a wildcard. -/
theorem parse_static_wild (E : RegexEngine) (s n : GoStr) (hne : s ≠ [])
    (hbs : ¬ '\\' ∈ s) (hn1 : n ≠ []) (hn2 : ¬ '{' ∈ n) (hn3 : ¬ '}' ∈ n)
    (hn4 : ¬ ':' ∈ n) :
    parse E (escapeBraces s ++ '{' :: (n ++ '}' :: [])) =
      .ok ([TemplateSlice.static s, TemplateSlice.dynamic ⟨n, none⟩],
        1) := by
  have hnnil : escapeBraces s ++ '{' :: (n ++ '}' :: []) ≠ [] := by simp
  have hplp : parseLoop E (escapeBraces s ++ '{' :: (n ++ '}' :: []))
      [] [] (-1) =
      .ok ([TemplateSlice.static s, TemplateSlice.dynamic ⟨n, none⟩],
        1) := by
    unfold parseLoop
    rw [parseLoopN_fuel_irrel E
      (escapeBraces s ++ '{' :: (n ++ '}' :: [])).length
      ((escapeBraces s ++ '{' :: (n ++ '}' :: [])).length + 1)
      _ _ _ _ le_rfl (Nat.le_succ _)]
    rw [parseLoopN_static_wild E
      (escapeBraces s ++ '{' :: (n ++ '}' :: [])).length s n [] hne hbs
      hn1 hn2 hn3 hn4 [] (-1) (by decide)]
    simp [parseLoopN]
  simp [parse, hnnil, hplp]

/-- `parse` on a rendered wildcard followed by a static slice. -/
theorem parse_wild_static (E : RegexEngine) (n s : GoStr) (hn1 : n ≠ [])
    (hn2 : ¬ '{' ∈ n) (hn3 : ¬ '}' ∈ n) (hn4 : ¬ ':' ∈ n) (hne : s ≠ [])
    (hbs : ¬ '\\' ∈ s) :
    parse E ('{' :: (n ++ '}' :: escapeBraces s)) =
      .ok ([TemplateSlice.dynamic ⟨n, none⟩, TemplateSlice.static s],
        0) := by
  have hplp : parseLoop E ('{' :: (n ++ '}' :: escapeBraces s)) [] [] (-1) =
      .ok ([TemplateSlice.dynamic ⟨n, none⟩, TemplateSlice.static s],
        0) := by
    unfold parseLoop
    rw [List.length_cons]
    rw [parseLoopN_wild E (n ++ '}' :: escapeBraces s).length n
      (escapeBraces s) hn1 hn2 hn3 hn4 [] (-1) (by decide)]
    rw [parseLoopN_static_only E (n ++ '}' :: escapeBraces s).length s hne
      hbs _ _ _]
    simp
  simp [parse, hplp]

/-- `parse` on a rendered static slice, wildcard, and second static
slice. -/
theorem parse_static_wild_static (E : RegexEngine) (s n s2 : GoStr)
    (hne : s ≠ []) (hbs : ¬ '\\' ∈ s) (hn1 : n ≠ []) (hn2 : ¬ '{' ∈ n)
    (hn3 : ¬ '}' ∈ n) (hn4 : ¬ ':' ∈ n) (hne2 : s2 ≠ [])
    (hbs2 : ¬ '\\' ∈ s2) :
    parse E (escapeBraces s ++ '{' :: (n ++ '}' :: escapeBraces s2)) =
      .ok ([TemplateSlice.static s, TemplateSlice.dynamic ⟨n, none⟩,
        TemplateSlice.static s2], 1) := by
  have hnnil : escapeBraces s ++ '{' :: (n ++ '}' :: escapeBraces s2) ≠ [] :=
    by simp
  have hplp : parseLoop E
      (escapeBraces s ++ '{' :: (n ++ '}' :: escapeBraces s2)) [] [] (-1) =
      .ok ([TemplateSlice.static s, TemplateSlice.dynamic ⟨n, none⟩,
        TemplateSlice.static s2], 1) := by
    unfold parseLoop
    rw [parseLoopN_fuel_irrel E
      (escapeBraces s ++ '{' :: (n ++ '}' :: escapeBraces s2)).length
      ((escapeBraces s ++ '{' :: (n ++ '}' :: escapeBraces s2)).length + 1)
      _ _ _ _ le_rfl (Nat.le_succ _)]
    rw [parseLoopN_static_wild E
      (escapeBraces s ++ '{' :: (n ++ '}' :: escapeBraces s2)).length s n
      (escapeBraces s2) hne hbs hn1 hn2 hn3 hn4 [] (-1) (by decide)]
    rw [parseLoopN_static_only E
      (escapeBraces s ++ '{' :: (n ++ '}' :: escapeBraces s2)).length s2
      hne2 hbs2 _ _ _]
    simp
  simp [parse, hnnil, hplp]

/-- A well-formed static slice for the round trip: non-empty,
backslash-free content and no value pattern (as the parser produces,
content without backslashes aside). -/
def wfStaticSlice (slc : TemplateSlice) : Prop :=
  slc.staticStr ≠ [] ∧ ¬ '\\' ∈ slc.staticStr ∧ slc.valuePattern = none

/-- A well-formed wildcard slice for the round trip: empty static
string, a regex-free value pattern, and a non-empty value name free of
braces and colons. -/
def wfWildSlice (slc : TemplateSlice) (n : GoStr) : Prop :=
  slc.staticStr = [] ∧ slc.valuePattern = some ⟨n, none⟩ ∧ n ≠ [] ∧
    ¬ '{' ∈ n ∧ ¬ '}' ∈ n ∧ ¬ ':' ∈ n

/-- C7 (amended): the rendered-string round trip is exact — same name,
same slices, same wildcard index — for named templates (colon- and
backslash-free name) whose slices are well-formed static slices and at
most one wildcard; it is inexact on regex patterns, whose source gains
one more anchor layer on each re-parse (counterexample). -/
theorem C7_roundTrip (E : RegexEngine) (t : Template)
    (hname : t.name ≠ []) (hnc : ¬ ':' ∈ t.name) (hnb : ¬ '\\' ∈ t.name)
    (hshape :
      (∃ a, t.slices = [a] ∧ wfStaticSlice a ∧ t.wildCardIdx = -1) ∨
      (∃ a n, t.slices = [a] ∧ wfWildSlice a n ∧ t.wildCardIdx = 0) ∨
      (∃ a b n, t.slices = [a, b] ∧ wfStaticSlice a ∧ wfWildSlice b n ∧
        t.wildCardIdx = 1) ∨
      (∃ a b n, t.slices = [a, b] ∧ wfWildSlice a n ∧ wfStaticSlice b ∧
        t.wildCardIdx = 0) ∨
      (∃ a b c n, t.slices = [a, b, c] ∧ wfStaticSlice a ∧
        wfWildSlice b n ∧ wfStaticSlice c ∧ t.wildCardIdx = 1)) :
    TryToParse E t.StringRepr = .ok t := by
  rcases hshape with ⟨a, hsl, ⟨ha1, ha2, ha3⟩, hwci⟩ |
    ⟨a, n, hsl, ⟨ha1, ha2, hn1, hn2, hn3, hn4⟩, hwci⟩ |
    ⟨a, b, n, hsl, ⟨ha1, ha2, ha3⟩, ⟨hb1, hb2, hn1, hn2, hn3, hn4⟩, hwci⟩ |
    ⟨a, b, n, hsl, ⟨ha1, ha2, hn1, hn2, hn3, hn4⟩, ⟨hb1, hb2, hb3⟩, hwci⟩ |
    ⟨a, b, c, n, hsl, ⟨ha1, ha2, ha3⟩, ⟨hb1, hb2, hn1, hn2, hn3, hn4⟩,
      ⟨hc1, hc2, hc3⟩, hwci⟩
  · -- single static slice
    have ha : TemplateSlice.static a.staticStr = a := by
      obtain ⟨ss, vp⟩ := a
      simp only [TemplateSlice.static] at ha3 ⊢
      simp_all
    have hct : contentLoop t.slices [] = escapeBraces a.staticStr := by
      rw [hsl]; simp [contentLoop, ha1]
    rw [stringRepr_named t hname hnc, hct]
    have heq : (⟨t.name, [a], -1⟩ : Template) = t := by
      rw [← hsl, ← hwci]
    simp [TryToParse,
      templateNameAndContent_named t.name (escapeBraces a.staticStr) hname
        hnc hnb,
      parse_static_single E a.staticStr ha1 ha2, hname, ha, heq]
  · -- single wildcard slice
    have ha : TemplateSlice.dynamic ⟨n, none⟩ = a := by
      obtain ⟨ss, vp⟩ := a
      simp only [TemplateSlice.dynamic] at ha1 ha2 ⊢
      simp_all
    have hct : contentLoop t.slices [] = '{' :: (n ++ '}' :: []) := by
      rw [hsl]
      simp [contentLoop, ha1, ha2, escapeColons_id n hn4]
    rw [stringRepr_named t hname hnc, hct]
    have heq : (⟨t.name, [a], 0⟩ : Template) = t := by
      rw [← hsl, ← hwci]
    simp [TryToParse,
      templateNameAndContent_named t.name ('{' :: (n ++ '}' :: [])) hname
        hnc hnb,
      parse_wild_single E n hn1 hn2 hn3 hn4, hname, ha, heq]
  · -- static slice then wildcard
    have ha : TemplateSlice.static a.staticStr = a := by
      obtain ⟨ss, vp⟩ := a
      simp only [TemplateSlice.static] at ha3 ⊢
      simp_all
    have hb : TemplateSlice.dynamic ⟨n, none⟩ = b := by
      obtain ⟨ss, vp⟩ := b
      simp only [TemplateSlice.dynamic] at hb1 hb2 ⊢
      simp_all
    have hct : contentLoop t.slices [] =
        escapeBraces a.staticStr ++ '{' :: (n ++ '}' :: []) := by
      rw [hsl]
      simp [contentLoop, ha1, hb1, hb2, escapeColons_id n hn4]
    rw [stringRepr_named t hname hnc, hct]
    have heq : (⟨t.name, [a, b], 1⟩ : Template) = t := by
      rw [← hsl, ← hwci]
    simp [TryToParse,
      templateNameAndContent_named t.name
        (escapeBraces a.staticStr ++ '{' :: (n ++ '}' :: [])) hname hnc hnb,
      parse_static_wild E a.staticStr n ha1 ha2 hn1 hn2 hn3 hn4, hname,
      ha, hb, heq]
  · -- wildcard then static slice
    have ha : TemplateSlice.dynamic ⟨n, none⟩ = a := by
      obtain ⟨ss, vp⟩ := a
      simp only [TemplateSlice.dynamic] at ha1 ha2 ⊢
      simp_all
    have hb : TemplateSlice.static b.staticStr = b := by
      obtain ⟨ss, vp⟩ := b
      simp only [TemplateSlice.static] at hb3 ⊢
      simp_all
    have hct : contentLoop t.slices [] =
        '{' :: (n ++ '}' :: escapeBraces b.staticStr) := by
      rw [hsl]
      simp [contentLoop, ha1, ha2, hb1, escapeColons_id n hn4]
    rw [stringRepr_named t hname hnc, hct]
    have heq : (⟨t.name, [a, b], 0⟩ : Template) = t := by
      rw [← hsl, ← hwci]
    simp [TryToParse,
      templateNameAndContent_named t.name
        ('{' :: (n ++ '}' :: escapeBraces b.staticStr)) hname hnc hnb,
      parse_wild_static E n b.staticStr hn1 hn2 hn3 hn4 hb1 hb2, hname,
      ha, hb, heq]
  · -- static slice, wildcard, static slice
    have ha : TemplateSlice.static a.staticStr = a := by
      obtain ⟨ss, vp⟩ := a
      simp only [TemplateSlice.static] at ha3 ⊢
      simp_all
    have hb : TemplateSlice.dynamic ⟨n, none⟩ = b := by
      obtain ⟨ss, vp⟩ := b
      simp only [TemplateSlice.dynamic] at hb1 hb2 ⊢
      simp_all
    have hc : TemplateSlice.static c.staticStr = c := by
      obtain ⟨ss, vp⟩ := c
      simp only [TemplateSlice.static] at hc3 ⊢
      simp_all
    have hct : contentLoop t.slices [] =
        escapeBraces a.staticStr ++
          '{' :: (n ++ '}' :: escapeBraces c.staticStr) := by
      rw [hsl]
      simp [contentLoop, ha1, hb1, hb2, hc1, escapeColons_id n hn4]
    rw [stringRepr_named t hname hnc, hct]
    have heq : (⟨t.name, [a, b, c], 1⟩ : Template) = t := by
      rw [← hsl, ← hwci]
    simp [TryToParse,
      templateNameAndContent_named t.name
        (escapeBraces a.staticStr ++
          '{' :: (n ++ '}' :: escapeBraces c.staticStr)) hname hnc hnb,
      parse_static_wild_static E a.staticStr n c.staticStr ha1 ha2 hn1 hn2
        hn3 hn4 hc1 hc2, hname, ha, hb, hc, heq]

/-- C7 witness: the round trip at a concrete two-slice template
`$t:img\x7bid\x7d`. -/
theorem C7_witness :
    TryToParse unitEngine
      (⟨gs "t", [⟨gs "img", none⟩, ⟨[], some ⟨gs "id", none⟩⟩], 1⟩ :
        Template).StringRepr =
    .ok ⟨gs "t", [⟨gs "img", none⟩, ⟨[], some ⟨gs "id", none⟩⟩], 1⟩ :=
  C7_roundTrip unitEngine
    ⟨gs "t", [⟨gs "img", none⟩, ⟨[], some ⟨gs "id", none⟩⟩], 1⟩
    (by decide) (by decide) (by decide)
    (Or.inr (Or.inr (Or.inl ⟨⟨gs "img", none⟩, ⟨[], some ⟨gs "id", none⟩⟩,
      gs "id", rfl, ⟨by decide, by decide, rfl⟩,
      ⟨rfl, rfl, by decide, by decide, by decide, by decide⟩, rfl⟩)))

end Nanomux
